import Mathlib

/-!
# fastengine: the FAST primitive codec, value arithmetic, fields and loaders

A shallow embedding of `internal/fast/read_fast_encoded.go`,
`internal/fast/value/value.go`, `internal/fast/field/fieldunicodestring/field.go`
and the loaders `pkg/template/loader/loaduint32/loader.go` and
`pkg/template/loader/loadbytevector/loader.go`, followed by theorems about the
readers, the overflow-checked additions, `Deserialise` and the loaders.

Conventions of the embedding:

* a byte is a `Fin 256`; all arithmetic on it is done on its `.val`;
* a `*bytes.Buffer` is the list of its unread bytes; every reader returns its
  Go result together with the buffer it leaves behind;
* Go's `(T, error)` result is an `Except Error T`;
* `uint32`, `uint64` are naturals and `int64` is an integer, every operation
  that can wrap in Go is reduced modulo the width explicitly;
* state reached through a pointer (buffer, presence map, dictionary) is passed
  in and returned;
* packages that are not among the sources are either parameters of the
  function that calls them or definitions marked as modelled from the spec.
-/

set_option maxRecDepth 100000

namespace FastEngine

/-! ## Data model -/

/-- One octet of the input. -/
abbrev Byte := Fin 256

/-- Unread portion of a `bytes.Buffer`. -/
abbrev Buffer := List Byte

/-- Errors a reader or an addition can return: `io.EOF` from `ReadByte`, an
error built by `fmt.Errorf` (its format string is kept, the formatted
arguments are not), and a run-time panic of a failed type assertion. -/
inductive Error where
  | EOF
  | Errorf (format : String)
  | Panic
  deriving DecidableEq, Repr

deriving instance DecidableEq for Except

/-- Go struct `value.NullValue`. -/
structure NullValue where
  deriving DecidableEq, Repr

/-- Go struct `value.StringValue`; a Go string is a sequence of bytes. -/
structure StringValue where
  Value : List Byte
  deriving DecidableEq, Repr

/-- Go struct `value.ByteVector`. -/
structure ByteVector where
  Value : List Byte
  deriving DecidableEq, Repr

/-- Go struct `value.UInt32Value`. -/
structure UInt32Value where
  Value : Nat
  deriving DecidableEq, Repr

/-- Go struct `value.Int32Value`. -/
structure Int32Value where
  Value : Int
  deriving DecidableEq, Repr

/-- Go struct `value.UInt64Value`. -/
structure UInt64Value where
  Value : Nat
  deriving DecidableEq, Repr

/-- Go struct `value.Int64Value`. -/
structure Int64Value where
  Value : Int
  deriving DecidableEq, Repr

/-- Go struct `value.BigInt`. -/
structure BigInt where
  Value : Int
  deriving DecidableEq, Repr

/-- Go interface `value.Value`: one constructor per implementing struct. -/
inductive Value where
  | null (v : NullValue)
  | string (v : StringValue)
  | byteVector (v : ByteVector)
  | uint32 (v : UInt32Value)
  | int32 (v : Int32Value)
  | uint64 (v : UInt64Value)
  | int64 (v : Int64Value)
  | bigInt (v : BigInt)
  deriving DecidableEq, Repr

/-! ## Machine arithmetic -/

/-- Conversion to `uint32`: the low 32 bits. -/
def toUInt32 (x : Int) : Nat := (x % 4294967296).toNat

/-- Conversion to `uint64`: the low 64 bits. -/
def toUInt64 (x : Int) : Nat := (x % 18446744073709551616).toNat

/-- Conversion to `int64`: the low 64 bits read in two's complement. -/
def toInt64 (x : Int) : Int :=
  (x + 9223372036854775808) % 18446744073709551616 - 9223372036854775808

/-- Conversion to `int32`: the low 32 bits read in two's complement. -/
def toInt32 (x : Int) : Int :=
  (x + 2147483648) % 4294967296 - 2147483648

/-- `math.MaxUint32`. -/
def MaxUint32 : Nat := 4294967295

/-- `math.MaxInt32`. -/
def MaxInt32 : Int := 2147483647

/-- `math.MinInt32`. -/
def MinInt32 : Int := -2147483648

/-! ## `bytes.Buffer` -/

/-- `(*bytes.Buffer).ReadByte`: the next byte and the rest, or `io.EOF`. -/
def ReadByte (inputSource : Buffer) : Except Error Byte × Buffer :=
  match inputSource with
  | [] => (.error .EOF, [])
  | b :: rest => (.ok b, rest)

/-! ## `read_fast_encoded.go` -/

/-- Message of the error `ReadUInt32` returns after its loop. -/
def uint32OverflowMsg : String :=
  "More than 4 bytes have been read without reading a stop bit, this will overflow a uint32"

/-- Message of the error `ReadUInt64` returns after its loop. -/
def uint64OverflowMsg : String :=
  "More than 8 bytes have been read without reading a stop bit, this will overflow a uint64"

/-- Loop of `ReadUInt32`, `for i := 0; i < 4; i++`, with `n = 4 - i` iterations
left and `readValue` the accumulator; when the loop runs out the function
returns its overflow error. -/
def readUInt32Loop : Nat → Nat → Buffer → Except Error UInt32Value × Buffer
  | 0, _, inputSource => (.error (.Errorf uint32OverflowMsg), inputSource)
  | n + 1, readValue, inputSource =>
    match ReadByte inputSource with
    | (.error err, rest) => (.error err, rest)
    | (.ok b, rest) =>
      if b.val &&& 128 = 128 then
        let removedStopBit := b.val &&& 127
        (.ok ⟨(readValue <<< 7) % 4294967296 ||| removedStopBit⟩, rest)
      else
        readUInt32Loop n ((readValue <<< 7) % 4294967296 ||| b.val) rest

/-- Go `ReadUInt32`. -/
def ReadUInt32 (inputSource : Buffer) : Except Error UInt32Value × Buffer :=
  readUInt32Loop 4 0 inputSource

/-- Go `ReadOptionalUInt32`. -/
def ReadOptionalUInt32 (inputSource : Buffer) : Except Error Value × Buffer :=
  match ReadUInt32 inputSource with
  | (.error err, rest) => (.error err, rest)
  | (.ok readValue, rest) =>
    if readValue.Value = 0 then
      (.ok (.null {}), rest)
    else
      (.ok (.uint32 ⟨(readValue.Value + 4294967296 - 1) % 4294967296⟩), rest)

/-- Loop of `ReadUInt64`, `for i := 0; i < 8; i++`, with `n = 8 - i` iterations
left and `readValue` the accumulator; when the loop runs out the function
returns its overflow error. -/
def readUInt64Loop : Nat → Nat → Buffer → Except Error UInt64Value × Buffer
  | 0, _, inputSource => (.error (.Errorf uint64OverflowMsg), inputSource)
  | n + 1, readValue, inputSource =>
    match ReadByte inputSource with
    | (.error err, rest) => (.error err, rest)
    | (.ok b, rest) =>
      if b.val &&& 128 = 128 then
        let removedStopBit := b.val &&& 127
        (.ok ⟨(readValue <<< 7) % 18446744073709551616 ||| removedStopBit⟩, rest)
      else
        readUInt64Loop n ((readValue <<< 7) % 18446744073709551616 ||| b.val) rest

/-- Go `ReadUInt64`. -/
def ReadUInt64 (inputSource : Buffer) : Except Error UInt64Value × Buffer :=
  readUInt64Loop 8 0 inputSource

/-- Go `ReadOptionalUInt64`. -/
def ReadOptionalUInt64 (inputSource : Buffer) : Except Error Value × Buffer :=
  match ReadUInt64 inputSource with
  | (.error err, rest) => (.error err, rest)
  | (.ok readValue, rest) =>
    if readValue.Value = 0 then
      (.ok (.null {}), rest)
    else
      (.ok (.uint64 ⟨(readValue.Value + 18446744073709551616 - 1) % 18446744073709551616⟩), rest)

/-- Go `ReadString`: the body is `return value.StringValue{}, nil`; the buffer
is not touched. -/
def ReadString (inputSource : Buffer) : Except Error StringValue × Buffer :=
  (.ok ⟨[]⟩, inputSource)

/-- Loop of `ReadValue`, `for { ... }`, with `value` the bytes appended so far.
Every iteration takes one byte off the buffer with `ReadByte`, `io.EOF` on the
empty buffer, so the recursion is on the buffer; `b<<1` is a byte shift,
modulo 256. -/
def readValueLoop (value : List Byte) : Buffer → Except Error (List Byte) × Buffer
  | [] => (.error .EOF, [])
  | b :: inputSource =>
    if b.val &&& 128 = 128 then
      (.ok (value ++ [⟨(b.val <<< 1) % 256, Nat.mod_lt _ (by decide)⟩]), inputSource)
    else
      readValueLoop (value ++ [⟨(b.val <<< 1) % 256, Nat.mod_lt _ (by decide)⟩]) inputSource

/-- Go `ReadValue`. -/
def ReadValue (inputSource : Buffer) : Except Error (List Byte) × Buffer :=
  readValueLoop [] inputSource

/-! ## `value.go` -/

/-- Modelled from the spec: the dynamic value held by a `fix.Value` of package
`client/fix`, which is not among the sources; one constructor per Go type
that `fix.NewRawValue` is applied to in `value.go` (the variants of the spec's
LogicalValue). -/
inductive FixRaw where
  | uint32 (v : Nat)
  | int32 (v : Int)
  | uint64 (v : Nat)
  | int64 (v : Int)
  | bigInt (v : Int)
  | string (v : List Byte)
  | bytes (v : List Byte)
  deriving DecidableEq, Repr

/-- Modelled from the spec: interface `fix.Value` of package `client/fix`, which
is not among the sources: `fix.NullValue{}` or `fix.NewRawValue(v)`. -/
inductive FixValue where
  | NullValue
  | RawValue (v : FixRaw)
  deriving DecidableEq, Repr

/-- Modelled from the spec: method `Get` of `fix.Value`, the wrapped dynamic
value; the null value wraps none. -/
def FixValue.Get : FixValue → Option FixRaw
  | .NullValue => none
  | .RawValue v => some v

/-- Go `addValueWithinUInt32Constraints`; `readValue` and `value` are `int64`,
the subtraction is done on `uint64` and the additions on `int64`. -/
def addValueWithinUInt32Constraints (readValue value : Int) : Except Error FixValue :=
  if readValue > 0 ∧ toUInt64 value >
      (MaxUint32 + 18446744073709551616 - toUInt64 readValue) % 18446744073709551616 then
    .error (.Errorf "%v + %v would overflow uint32")
  else if 0 > toInt64 (value + readValue) then
    .error (.Errorf "%v + %v would overflow uint32")
  else
    .ok (.RawValue (.uint32 (toUInt32 (toInt64 (readValue + value)))))

/-- Go `addValueWithinInt32Constraints`; all arithmetic is done on `int64`. -/
def addValueWithinInt32Constraints (readValue value : Int) : Except Error FixValue :=
  if readValue > 0 ∧ value > toInt64 (MaxInt32 - readValue) then
    .error (.Errorf "%v + %v would overflow int32")
  else if value < toInt64 (MinInt32 - readValue) then
    .error (.Errorf "%v + %v would overflow int32")
  else
    .ok (.RawValue (.int32 (toInt32 (toInt64 (readValue + value)))))

/-- Go `UInt32Value.Add`; the type assertion `.(uint32)` panics on any other
dynamic type. -/
def UInt32Value.Add (value : UInt32Value) (toAdd : FixValue) : Except Error FixValue :=
  match toAdd.Get with
  | some (.uint32 rawValue) =>
    addValueWithinUInt32Constraints (toInt64 value.Value) (toInt64 rawValue)
  | _ => .error .Panic

/-- Go `Int32Value.Add`; the type assertion `.(int32)` panics on any other
dynamic type. -/
def Int32Value.Add (value : Int32Value) (toAdd : FixValue) : Except Error FixValue :=
  match toAdd.Get with
  | some (.int32 rawValue) =>
    addValueWithinInt32Constraints (toInt64 value.Value) (toInt64 rawValue)
  | _ => .error .Panic

/-- Go `Int64Value.Add`: a type switch on the dynamic type of the operand. -/
def Int64Value.Add (value : Int64Value) (toAdd : FixValue) : Except Error FixValue :=
  match toAdd.Get with
  | some (.int32 t) => addValueWithinInt32Constraints value.Value (toInt64 t)
  | some (.uint32 t) => addValueWithinUInt32Constraints value.Value (toInt64 t)
  | _ => .error (.Errorf "unsupported type to add int64 to: %#v")

/-- Go `(*big.Int).IsInt64`: the integer is representable as an `int64`. -/
def IsInt64 (x : Int) : Bool :=
  decide (-9223372036854775808 ≤ x ∧ x ≤ 9223372036854775807)

/-- Go `(*big.Int).IsUint64`: the integer is representable as a `uint64`. -/
def IsUint64 (x : Int) : Bool :=
  decide (0 ≤ x ∧ x ≤ 18446744073709551615)

/-- Go `BigInt.Add`: a type switch on the dynamic type of the operand; the sum
is taken on a copy of the arbitrary-precision value and tested before it is
narrowed with `Int64()` or `Uint64()`. -/
def BigInt.Add (value : BigInt) (toAdd : FixValue) : Except Error FixValue :=
  let copy := value.Value
  match toAdd.Get with
  | some (.int64 t) =>
    let valueAfterAddition := copy + t
    if ¬ IsInt64 valueAfterAddition then
      .error (.Errorf "%v + %v would overflow int64")
    else
      .ok (.RawValue (.int64 (toInt64 valueAfterAddition)))
  | some (.uint64 t) =>
    let valueAfterAddition := copy + (t : Int)
    if ¬ IsUint64 valueAfterAddition then
      .error (.Errorf "%v + %v would overflow uint64")
    else
      .ok (.RawValue (.uint64 (toUInt64 valueAfterAddition)))
  | _ => .error (.Errorf "unsupported type to add big int to: %#v")

/-! ## `fieldunicodestring/field.go` -/

/-- Modelled from the spec: `properties.Properties`, which is not among the
sources: the FIX tag id, the name (the dictionary key) and the required flag
of a field, the three members `field.go` reads. -/
structure Properties where
  ID : Nat
  Name : String
  Required : Bool
  deriving DecidableEq, Repr

/-- Modelled from the spec: `dictionary.Dictionary`, which is not among the
sources: a mapping from field name to the value last assigned to it, `none`
being the undefined state. -/
structure Dictionary where
  values : String → Option FixValue

/-- Modelled from the spec: `Dictionary.GetValue`, the state stored under the
name; the dictionary is not changed. -/
def Dictionary.GetValue (dictionary : Dictionary) (name : String) : Option FixValue :=
  dictionary.values name

/-- Modelled from the spec: `Dictionary.SetValue`, which writes the value under
the name and leaves every other name as it was. -/
def Dictionary.SetValue (dictionary : Dictionary) (name : String) (value : FixValue) :
    Dictionary :=
  ⟨fun n => if n = name then some value else dictionary.values n⟩

/-- Go interface `operation.Operation` as `Deserialise` uses it. Its
implementations are not among the sources, so every method is left open; the
presence map is passed by pointer, hence the methods that receive it return
its state `PMap` as well. No method receives the dictionary or the buffer. -/
structure Operation (PMap : Type) where
  ShouldReadValue : PMap → Bool × PMap
  Apply : Value → Option FixValue → Except Error FixValue
  GetNotEncodedValue : PMap → Bool → Option FixValue → Except Error FixValue × PMap
  RequiresPmap : Bool → Bool

/-- Go struct `FieldUnicodeString`. -/
structure FieldUnicodeString (PMap : Type) where
  FieldDetails : Properties
  Operation : FastEngine.Operation PMap

/-- The readers `fast.ReadByteVector` and `fast.ReadOptionalByteVector` that
`Deserialise` calls; they are not among the sources and are left open. -/
structure ByteVectorReaders where
  ReadByteVector : Buffer → Except Error Value × Buffer
  ReadOptionalByteVector : Buffer → Except Error Value × Buffer

/-- Go `FieldUnicodeString.Deserialise`. The result is followed by the three
pieces of state the call can touch: the input buffer, the presence map and
the dictionary. -/
def FieldUnicodeString.Deserialise {PMap : Type} (fast : ByteVectorReaders)
    (field : FieldUnicodeString PMap) (inputSource : Buffer) (pMap : PMap)
    (dictionary : Dictionary) : Except Error FixValue × Buffer × PMap × Dictionary :=
  let previousValue := dictionary.GetValue field.FieldDetails.Name
  match field.Operation.ShouldReadValue pMap with
  | (true, pMap) =>
    let read :=
      if field.FieldDetails.Required then
        fast.ReadByteVector inputSource
      else
        fast.ReadOptionalByteVector inputSource
    match read with
    | (.error err, inputSource) => (.error err, inputSource, pMap, dictionary)
    | (.ok stringValue, inputSource) =>
      let stringValue :=
        match stringValue with
        | .byteVector t => Value.string ⟨t.Value⟩
        | other => other
      match field.Operation.Apply stringValue previousValue with
      | .error err => (.error err, inputSource, pMap, dictionary)
      | .ok transformedValue =>
        (.ok transformedValue, inputSource, pMap,
          dictionary.SetValue field.FieldDetails.Name transformedValue)
  | (false, pMap) =>
    match field.Operation.GetNotEncodedValue pMap field.FieldDetails.Required previousValue with
    | (.error err, pMap) => (.error err, inputSource, pMap, dictionary)
    | (.ok transformedValue, pMap) =>
      (.ok transformedValue, inputSource, pMap,
        dictionary.SetValue field.FieldDetails.Name transformedValue)

/-- A dictionary in which every name is undefined. -/
def emptyDictionary : Dictionary := ⟨fun _ => none⟩

/-- An operation to instantiate the statements about `Deserialise` with: the
presence map is a list of bits and its head bit tells whether a value is
read; a string read is the result; a value not encoded is the previous one,
an error when there is none. -/
def sampleOperation : Operation (List Bool) where
  ShouldReadValue := fun pMap =>
    match pMap with
    | [] => (false, [])
    | bit :: rest => (bit, rest)
  Apply := fun readValue _ =>
    match readValue with
    | .string v => .ok (.RawValue (.string v.Value))
    | _ => .error (.Errorf "not a string")
  GetNotEncodedValue := fun pMap _ previousValue =>
    match previousValue with
    | some v => (.ok v, pMap)
    | none => (.error (.Errorf "no previous value"), pMap)
  RequiresPmap := fun _ => true

/-- Readers to instantiate the statements about `Deserialise` with: the whole
buffer is the byte vector, an empty buffer is the end of input. -/
def sampleReaders : ByteVectorReaders where
  ReadByteVector := fun inputSource =>
    match inputSource with
    | [] => (.error .EOF, [])
    | b :: rest => (.ok (.byteVector ⟨b :: rest⟩), [])
  ReadOptionalByteVector := fun inputSource =>
    match inputSource with
    | [] => (.error .EOF, [])
    | b :: rest => (.ok (.byteVector ⟨b :: rest⟩), [])

/-- A mandatory unicode string field, FIX tag 35, with the sample operation. -/
def sampleField : FieldUnicodeString (List Bool) :=
  ⟨⟨35, "MessageType", true⟩, sampleOperation⟩

/-! ## `loaduint32/loader.go` and `loadbytevector/loader.go` -/

/-- Modelled from the spec: `xml.Tag` of package `internal/xml`, which is not
among the sources: an element with its tag name, its attributes and its child
elements, the three members the loaders read. -/
inductive Tag where
  | mk (TagType : String) (Attributes : List (String × String)) (NestedTags : List Tag)

/-- Member `Type` of a tag (`Type` is reserved in Lean). -/
def Tag.TagType : Tag → String
  | .mk ty _ _ => ty

/-- Member `Attributes` of a tag. -/
def Tag.Attributes : Tag → List (String × String)
  | .mk _ attrs _ => attrs

/-- Member `NestedTags` of a tag. -/
def Tag.NestedTags : Tag → List Tag
  | .mk _ _ nested => nested

/-- Go map index `tag.Attributes[key]`: the empty string when the key is absent. -/
def Tag.attribute (tag : Tag) (key : String) : String :=
  (tag.Attributes.lookup key).getD ""

/-- Modelled from the spec: `structure.ValueAttribute`, the attribute `value`
of an operator tag. -/
def ValueAttribute : String := "value"

/-- Modelled from the spec: `structure.ConstantOperation`, the tag `constant`. -/
def ConstantOperation : String := "constant"

/-- Modelled from the spec: `structure.DefaultOperation`, the tag `default`. -/
def DefaultOperation : String := "default"

/-- Modelled from the spec: `structure.CopyOperation`, the tag `copy`. -/
def CopyOperation : String := "copy"

/-- Modelled from the spec: `structure.IncrementOperation`, the tag `increment`. -/
def IncrementOperation : String := "increment"

/-- Modelled from the spec: `structure.TailOperation`, the tag `tail`. -/
def TailOperation : String := "tail"

/-- Modelled from the spec: `structure.DeltaOperation`, the tag `delta`. -/
def DeltaOperation : String := "delta"

/-- Modelled from the spec: `structure.HasValue`, which is not among the
sources: the tag carries the attribute `value`. -/
def HasValue (tag : Tag) : Bool :=
  (tag.Attributes.lookup ValueAttribute).isSome

/-- Modelled from the spec: the operators a field constructor of packages
`fielduint32` and `fieldbytevector` can attach, with the members the
constructors of `fieldunicodestring/field.go` give them. -/
inductive Operator where
  | None
  | Constant (ConstantValue : FixValue)
  | Default (DefaultValue : FixValue)
  | Copy (InitialValue : FixValue)
  | Increment (InitialValue : FixValue)
  | Tail (InitialValue : FixValue) (BaseValue : FixValue)
  | Delta (InitialValue : FixValue)
  deriving DecidableEq, Repr

/-- Modelled from the spec: struct `fielduint32.FieldUInt32`, which is not among
the sources; same members as `FieldUnicodeString`. -/
structure FieldUInt32 where
  FieldDetails : Properties
  Operation : Operator
  deriving DecidableEq, Repr

/-- Modelled from the spec: struct `fieldbytevector.FieldByteVector`, which is
not among the sources; same members as `FieldUnicodeString`. -/
structure FieldByteVector where
  FieldDetails : Properties
  Operation : Operator
  deriving DecidableEq, Repr

namespace fielduint32

/-- Modelled from the spec: `fielduint32.New`, absent operator is None; as
`fieldunicodestring.New`. -/
def New (properties : Properties) : FieldUInt32 :=
  ⟨properties, .None⟩

/-- Modelled from the spec: `fielduint32.NewConstantOperation`. -/
def NewConstantOperation (properties : Properties) (constantValue : Nat) : FieldUInt32 :=
  ⟨properties, .Constant (.RawValue (.uint32 constantValue))⟩

/-- Modelled from the spec: `fielduint32.NewDefaultOperation`. -/
def NewDefaultOperation (properties : Properties) : FieldUInt32 :=
  ⟨properties, .Default .NullValue⟩

/-- Modelled from the spec: `fielduint32.NewDefaultOperationWithValue`. -/
def NewDefaultOperationWithValue (properties : Properties) (defaultValue : Nat) : FieldUInt32 :=
  ⟨properties, .Default (.RawValue (.uint32 defaultValue))⟩

/-- Modelled from the spec: `fielduint32.NewCopyOperation`. -/
def NewCopyOperation (properties : Properties) : FieldUInt32 :=
  ⟨properties, .Copy .NullValue⟩

/-- Modelled from the spec: `fielduint32.NewCopyOperationWithInitialValue`. -/
def NewCopyOperationWithInitialValue (properties : Properties) (initialValue : Nat) :
    FieldUInt32 :=
  ⟨properties, .Copy (.RawValue (.uint32 initialValue))⟩

/-- Modelled from the spec: `fielduint32.NewIncrementOperation`. -/
def NewIncrementOperation (properties : Properties) : FieldUInt32 :=
  ⟨properties, .Increment .NullValue⟩

/-- Modelled from the spec: `fielduint32.NewIncrementOperationWithInitialValue`. -/
def NewIncrementOperationWithInitialValue (properties : Properties) (initialValue : Nat) :
    FieldUInt32 :=
  ⟨properties, .Increment (.RawValue (.uint32 initialValue))⟩

/-- Modelled from the spec: `fielduint32.NewDeltaOperation`. -/
def NewDeltaOperation (properties : Properties) : FieldUInt32 :=
  ⟨properties, .Delta .NullValue⟩

/-- Modelled from the spec: `fielduint32.NewDeltaOperationWithInitialValue`. -/
def NewDeltaOperationWithInitialValue (properties : Properties) (initialValue : Nat) :
    FieldUInt32 :=
  ⟨properties, .Delta (.RawValue (.uint32 initialValue))⟩

end fielduint32

namespace fieldbytevector

/-- Modelled from the spec: `fieldbytevector.New`, absent operator is None; as
`fieldunicodestring.New`. -/
def New (properties : Properties) : FieldByteVector :=
  ⟨properties, .None⟩

/-- Modelled from the spec: `fieldbytevector.NewConstantOperation`. -/
def NewConstantOperation (properties : Properties) (constantValue : List Byte) :
    FieldByteVector :=
  ⟨properties, .Constant (.RawValue (.bytes constantValue))⟩

/-- Modelled from the spec: `fieldbytevector.NewDefaultOperation`. -/
def NewDefaultOperation (properties : Properties) : FieldByteVector :=
  ⟨properties, .Default .NullValue⟩

/-- Modelled from the spec: `fieldbytevector.NewDefaultOperationWithValue`. -/
def NewDefaultOperationWithValue (properties : Properties) (defaultValue : List Byte) :
    FieldByteVector :=
  ⟨properties, .Default (.RawValue (.bytes defaultValue))⟩

/-- Modelled from the spec: `fieldbytevector.NewCopyOperation`. -/
def NewCopyOperation (properties : Properties) : FieldByteVector :=
  ⟨properties, .Copy .NullValue⟩

/-- Modelled from the spec: `fieldbytevector.NewCopyOperationWithInitialValue`. -/
def NewCopyOperationWithInitialValue (properties : Properties) (initialValue : List Byte) :
    FieldByteVector :=
  ⟨properties, .Copy (.RawValue (.bytes initialValue))⟩

/-- Modelled from the spec: `fieldbytevector.NewTailOperation`. -/
def NewTailOperation (properties : Properties) : FieldByteVector :=
  ⟨properties, .Tail .NullValue (.RawValue (.bytes []))⟩

/-- Modelled from the spec: `fieldbytevector.NewTailOperationWithInitialValue`. -/
def NewTailOperationWithInitialValue (properties : Properties) (initialValue : List Byte) :
    FieldByteVector :=
  ⟨properties, .Tail (.RawValue (.bytes initialValue)) (.RawValue (.bytes []))⟩

/-- Modelled from the spec: `fieldbytevector.NewDeltaOperation`. -/
def NewDeltaOperation (properties : Properties) : FieldByteVector :=
  ⟨properties, .Delta .NullValue⟩

/-- Modelled from the spec: `fieldbytevector.NewDeltaOperationWithInitialValue`. -/
def NewDeltaOperationWithInitialValue (properties : Properties) (initialValue : List Byte) :
    FieldByteVector :=
  ⟨properties, .Delta (.RawValue (.bytes initialValue))⟩

end fieldbytevector

/-- Message of the error both loaders return for an operator they have no case for. -/
def unsupportedOperationMsg : String := "unsupported operation type: %s"

/-- Message of the error both loaders return for a constant operator without a value. -/
def noConstantValueMsg : String := "no value specified for constant operation"

namespace loaduint32

/-- Go `loaduint32.Load`. The converter `converter.ToUInt32` is not among the
sources and is the parameter `ToUInt32`. -/
def Load (ToUInt32 : String → Except Error Nat) (tagInTemplate : Tag)
    (fieldDetails : Properties) : Except Error FieldUInt32 :=
  match tagInTemplate.NestedTags with
  | [operationTag] =>
    let operationType := operationTag.TagType
    let hasOperationValue := HasValue operationTag
    if operationType = DefaultOperation then
      if !hasOperationValue then
        .ok (fielduint32.NewDefaultOperation fieldDetails)
      else
        match ToUInt32 (operationTag.attribute ValueAttribute) with
        | .error err => .error err
        | .ok operationValue =>
          .ok (fielduint32.NewDefaultOperationWithValue fieldDetails operationValue)
    else if operationType = ConstantOperation then
      if !hasOperationValue then
        .error (.Errorf noConstantValueMsg)
      else
        match ToUInt32 (operationTag.attribute ValueAttribute) with
        | .error err => .error err
        | .ok operationValue =>
          .ok (fielduint32.NewConstantOperation fieldDetails operationValue)
    else if operationType = CopyOperation then
      if !hasOperationValue then
        .ok (fielduint32.NewCopyOperation fieldDetails)
      else
        match ToUInt32 (operationTag.attribute ValueAttribute) with
        | .error err => .error err
        | .ok operationValue =>
          .ok (fielduint32.NewCopyOperationWithInitialValue fieldDetails operationValue)
    else if operationType = IncrementOperation then
      if !hasOperationValue then
        .ok (fielduint32.NewIncrementOperation fieldDetails)
      else
        match ToUInt32 (operationTag.attribute ValueAttribute) with
        | .error err => .error err
        | .ok operationValue =>
          .ok (fielduint32.NewIncrementOperationWithInitialValue fieldDetails operationValue)
    else if operationType = DeltaOperation then
      if !hasOperationValue then
        .ok (fielduint32.NewDeltaOperation fieldDetails)
      else
        match ToUInt32 (operationTag.attribute ValueAttribute) with
        | .error err => .error err
        | .ok operationValue =>
          .ok (fielduint32.NewDeltaOperationWithInitialValue fieldDetails operationValue)
    else
      .error (.Errorf unsupportedOperationMsg)
  | _ => .ok (fielduint32.New fieldDetails)

end loaduint32

namespace loadbytevector

/-- Go `loadbytevector.Load`. The converter `converter.ToByteVector` is not
among the sources and is the parameter `ToByteVector`. -/
def Load (ToByteVector : String → Except Error (List Byte)) (tagInTemplate : Tag)
    (fieldDetails : Properties) : Except Error FieldByteVector :=
  match tagInTemplate.NestedTags with
  | [operationTag] =>
    let operationType := operationTag.TagType
    let hasOperationValue := HasValue operationTag
    if operationType = DefaultOperation then
      if !hasOperationValue then
        .ok (fieldbytevector.NewDefaultOperation fieldDetails)
      else
        match ToByteVector (operationTag.attribute ValueAttribute) with
        | .error err => .error err
        | .ok operationValue =>
          .ok (fieldbytevector.NewDefaultOperationWithValue fieldDetails operationValue)
    else if operationType = ConstantOperation then
      if !hasOperationValue then
        .error (.Errorf noConstantValueMsg)
      else
        match ToByteVector (operationTag.attribute ValueAttribute) with
        | .error err => .error err
        | .ok operationValue =>
          .ok (fieldbytevector.NewConstantOperation fieldDetails operationValue)
    else if operationType = CopyOperation then
      if !hasOperationValue then
        .ok (fieldbytevector.NewCopyOperation fieldDetails)
      else
        match ToByteVector (operationTag.attribute ValueAttribute) with
        | .error err => .error err
        | .ok operationValue =>
          .ok (fieldbytevector.NewCopyOperationWithInitialValue fieldDetails operationValue)
    else if operationType = TailOperation then
      if !hasOperationValue then
        .ok (fieldbytevector.NewTailOperation fieldDetails)
      else
        match ToByteVector (operationTag.attribute ValueAttribute) with
        | .error err => .error err
        | .ok operationValue =>
          .ok (fieldbytevector.NewTailOperationWithInitialValue fieldDetails operationValue)
    else if operationType = DeltaOperation then
      if !hasOperationValue then
        .ok (fieldbytevector.NewDeltaOperation fieldDetails)
      else
        match ToByteVector (operationTag.attribute ValueAttribute) with
        | .error err => .error err
        | .ok operationValue =>
          .ok (fieldbytevector.NewDeltaOperationWithInitialValue fieldDetails operationValue)
    else
      .error (.Errorf unsupportedOperationMsg)
  | _ => .ok (fieldbytevector.New fieldDetails)

end loadbytevector

/-! ## Vocabulary of the statements -/

/-- The high bit (0x80) of the byte is set. -/
def hasStopBit (b : Byte) : Prop := b.val &&& 128 = 128

instance (b : Byte) : Decidable (hasStopBit b) := by
  unfold hasStopBit; infer_instance

/-- The fold `acc = (acc << 7) | (byte & 0x7F)` over a list of bytes, on
unbounded naturals. -/
def stopBitFold (acc : Nat) (bs : List Byte) : Nat :=
  bs.foldl (fun a b => a <<< 7 ||| (b.val &&& 127)) acc

/-- The sum of `(b_i & 0x7F) * 128^(k-i)` over the bytes `b_1 .. b_k`. -/
def base128Sum : List Byte → Nat
  | [] => 0
  | b :: bs => (b.val &&& 127) * 128 ^ bs.length + base128Sum bs

/-- Byte with the given value, reduced modulo 256. -/
def byteOf (n : Nat) : Byte := ⟨n % 256, Nat.mod_lt n (by decide)⟩

/-- The base-128 digits of `v`, most significant first and without a leading
zero (none for 0), each as a byte with the high bit clear; `fuel` bounds the
number of digits produced. -/
def stopBitGroups : Nat → Nat → List Byte
  | 0, _ => []
  | fuel + 1, v =>
    if v = 0 then [] else stopBitGroups fuel (v / 128) ++ [byteOf (v % 128)]

/-- Reference encoder of the statements (the repository has no encoder): the
minimal-length stop-bit encoding of `v`, big-endian 7-bit groups with the high
bit set on the last byte only; `v` itself bounds the number of groups. -/
def encodeStopBit (v : Nat) : List Byte :=
  stopBitGroups v (v / 128) ++ [byteOf (v % 128 + 128)]

/-- Reference encoder of a nullable unsigned integer: null is the byte 0x80,
a value `v` is sent as the stop-bit encoding of `v + 1`. -/
def encodeNullable : Option Nat → List Byte
  | none => [byteOf 128]
  | some v => encodeStopBit (v + 1)

/-- The byte shifted left by one bit, modulo 256. -/
def shiftLeftOne (b : Byte) : Byte := ⟨(b.val * 2) % 256, Nat.mod_lt _ (by decide)⟩

/-! ## Bytes and the accumulation step -/

theorem hasStopBit_iff_le : ∀ b : Byte, hasStopBit b ↔ 128 ≤ b.val := by
  unfold hasStopBit; decide

theorem and_127_lt : ∀ b : Byte, b.val &&& 127 < 128 := by decide

theorem and_127_of_not_stop : ∀ b : Byte, ¬ hasStopBit b → b.val &&& 127 = b.val := by
  unfold hasStopBit; decide

theorem lt_128_of_not_stop (b : Byte) (h : ¬ hasStopBit b) : b.val < 128 := by
  by_contra hlt
  exact h ((hasStopBit_iff_le b).2 (by omega))

/-- Shifting by seven and or-ing in a seven-bit payload is `a * 128 + c`. -/
theorem shl7_or (a c : Nat) (h : c < 128) : a <<< 7 ||| c = a * 128 + c := by
  have key := Nat.mul_add_lt_is_or (i := 7) (b := c) (by simpa using h) a
  rw [Nat.shiftLeft_eq, Nat.mul_comm a (2 ^ 7), ← key]

theorem stopBitFold_nil (acc : Nat) : stopBitFold acc [] = acc := rfl

theorem stopBitFold_cons (acc : Nat) (b : Byte) (bs : List Byte) :
    stopBitFold acc (b :: bs) = stopBitFold (acc * 128 + (b.val &&& 127)) bs := by
  simp only [stopBitFold, List.foldl_cons]
  rw [shl7_or _ _ (and_127_lt b)]

theorem stopBitFold_append (acc : Nat) (xs ys : List Byte) :
    stopBitFold acc (xs ++ ys) = stopBitFold (stopBitFold acc xs) ys := by
  simp [stopBitFold]

/-- The fold is the positional base-128 sum, shifted by the initial accumulator. -/
theorem stopBitFold_eq_sum (bs : List Byte) :
    ∀ acc : Nat, stopBitFold acc bs = acc * 128 ^ bs.length + base128Sum bs := by
  induction bs with
  | nil => intro acc; simp [stopBitFold_nil, base128Sum]
  | cons b bs ih =>
    intro acc
    rw [stopBitFold_cons, ih, base128Sum, List.length_cons, pow_succ]
    ring

/-! ## The loops of `ReadUInt32` and `ReadUInt64` -/

/-- With `j` groups accumulated and the stop byte within the iterations left,
the 32-bit loop returns the unbounded fold and leaves what follows the stop
byte: at most four groups never reach bit 32. -/
theorem readUInt32Loop_stop (s : Byte) (rest : Buffer) (hs : hasStopBit s) (pre : List Byte) :
    ∀ (n acc j : Nat), (∀ b ∈ pre, ¬ hasStopBit b) → pre.length < n → acc < 128 ^ j →
      j + pre.length + 1 ≤ 4 →
      readUInt32Loop n acc (pre ++ s :: rest) = (.ok ⟨stopBitFold acc (pre ++ [s])⟩, rest) := by
  induction pre with
  | nil =>
    intro n acc j _ hn hacc hj
    obtain ⟨m, rfl⟩ : ∃ m, n = m + 1 := ⟨n - 1, by simp at hn; omega⟩
    have hpow : 128 ^ j ≤ 128 ^ 3 := Nat.pow_le_pow_right (by norm_num) (by simp at hj; omega)
    have hlt : acc * 128 < 4294967296 := by norm_num at hpow; omega
    have hs' : s.val &&& 128 = 128 := hs
    have step : (acc <<< 7) % 4294967296 ||| (s.val &&& 127) = acc * 128 + (s.val &&& 127) := by
      rw [← shl7_or acc _ (and_127_lt s), Nat.shiftLeft_eq, show (2 : Nat) ^ 7 = 128 by norm_num,
        Nat.mod_eq_of_lt hlt]
    simp only [List.nil_append, readUInt32Loop, ReadByte, hs', if_true, stopBitFold_cons,
      stopBitFold_nil, step]
  | cons b pre ih =>
    intro n acc j hpre hn hacc hj
    obtain ⟨m, rfl⟩ : ∃ m, n = m + 1 := ⟨n - 1, by simp at hn; omega⟩
    have hb : ¬ hasStopBit b := hpre b (List.mem_cons_self _ _)
    have hb' : ¬ (b.val &&& 128 = 128) := hb
    have hblt := lt_128_of_not_stop b hb
    have hpow : 128 ^ j ≤ 128 ^ 3 := Nat.pow_le_pow_right (by norm_num) (by simp at hj; omega)
    have hlt : acc * 128 < 4294967296 := by norm_num at hpow; omega
    have hacc' : acc * 128 + b.val < 128 ^ (j + 1) := by rw [pow_succ]; omega
    have step : (acc <<< 7) % 4294967296 ||| b.val = acc * 128 + b.val := by
      rw [← shl7_or acc b.val hblt, Nat.shiftLeft_eq, show (2 : Nat) ^ 7 = 128 by norm_num,
        Nat.mod_eq_of_lt hlt]
    simp only [List.cons_append, readUInt32Loop, ReadByte, hb', if_false, stopBitFold_cons, step,
      and_127_of_not_stop b hb]
    exact ih m _ (j + 1) (fun x hx => hpre x (List.mem_cons_of_mem _ hx))
      (by simp at hn; omega) hacc' (by simp at hj; omega)

/-- The buffer ends, without a stop byte, before the iterations do: the 32-bit
loop returns `io.EOF` and has drained the buffer. -/
theorem readUInt32Loop_eof (pre : List Byte) :
    ∀ (n acc : Nat), (∀ b ∈ pre, ¬ hasStopBit b) → pre.length < n →
      readUInt32Loop n acc pre = (.error .EOF, []) := by
  induction pre with
  | nil =>
    intro n acc _ hn
    obtain ⟨m, rfl⟩ : ∃ m, n = m + 1 := ⟨n - 1, by simp at hn; omega⟩
    simp [readUInt32Loop, ReadByte]
  | cons b pre ih =>
    intro n acc hpre hn
    obtain ⟨m, rfl⟩ : ∃ m, n = m + 1 := ⟨n - 1, by simp at hn; omega⟩
    have hb' : ¬ (b.val &&& 128 = 128) := hpre b (List.mem_cons_self _ _)
    simp only [readUInt32Loop, ReadByte, hb', if_false]
    exact ih m _ (fun x hx => hpre x (List.mem_cons_of_mem _ hx)) (by simp at hn; omega)

/-- As many bytes without a stop bit as there are iterations left: the 32-bit
loop returns its overflow error and leaves what follows those bytes. -/
theorem readUInt32Loop_exhaust (rest : Buffer) (pre : List Byte) :
    ∀ (n acc : Nat), (∀ b ∈ pre, ¬ hasStopBit b) → pre.length = n →
      readUInt32Loop n acc (pre ++ rest) = (.error (.Errorf uint32OverflowMsg), rest) := by
  induction pre with
  | nil =>
    intro n acc _ hn
    subst hn
    simp [readUInt32Loop]
  | cons b pre ih =>
    intro n acc hpre hn
    subst hn
    have hb' : ¬ (b.val &&& 128 = 128) := hpre b (List.mem_cons_self _ _)
    simp only [List.cons_append, List.length_cons, readUInt32Loop, ReadByte, hb', if_false]
    exact ih _ _ (fun x hx => hpre x (List.mem_cons_of_mem _ hx)) rfl

/-- With `j` groups accumulated and the stop byte within the iterations left,
the 64-bit loop returns the unbounded fold and leaves what follows the stop
byte: at most eight groups never reach bit 64. -/
theorem readUInt64Loop_stop (s : Byte) (rest : Buffer) (hs : hasStopBit s) (pre : List Byte) :
    ∀ (n acc j : Nat), (∀ b ∈ pre, ¬ hasStopBit b) → pre.length < n → acc < 128 ^ j →
      j + pre.length + 1 ≤ 8 →
      readUInt64Loop n acc (pre ++ s :: rest) = (.ok ⟨stopBitFold acc (pre ++ [s])⟩, rest) := by
  induction pre with
  | nil =>
    intro n acc j _ hn hacc hj
    obtain ⟨m, rfl⟩ : ∃ m, n = m + 1 := ⟨n - 1, by simp at hn; omega⟩
    have hpow : 128 ^ j ≤ 128 ^ 7 := Nat.pow_le_pow_right (by norm_num) (by simp at hj; omega)
    have hlt : acc * 128 < 18446744073709551616 := by norm_num at hpow; omega
    have hs' : s.val &&& 128 = 128 := hs
    have step : (acc <<< 7) % 18446744073709551616 ||| (s.val &&& 127)
        = acc * 128 + (s.val &&& 127) := by
      rw [← shl7_or acc _ (and_127_lt s), Nat.shiftLeft_eq, show (2 : Nat) ^ 7 = 128 by norm_num,
        Nat.mod_eq_of_lt hlt]
    simp only [List.nil_append, readUInt64Loop, ReadByte, hs', if_true, stopBitFold_cons,
      stopBitFold_nil, step]
  | cons b pre ih =>
    intro n acc j hpre hn hacc hj
    obtain ⟨m, rfl⟩ : ∃ m, n = m + 1 := ⟨n - 1, by simp at hn; omega⟩
    have hb : ¬ hasStopBit b := hpre b (List.mem_cons_self _ _)
    have hb' : ¬ (b.val &&& 128 = 128) := hb
    have hblt := lt_128_of_not_stop b hb
    have hpow : 128 ^ j ≤ 128 ^ 7 := Nat.pow_le_pow_right (by norm_num) (by simp at hj; omega)
    have hlt : acc * 128 < 18446744073709551616 := by norm_num at hpow; omega
    have hacc' : acc * 128 + b.val < 128 ^ (j + 1) := by rw [pow_succ]; omega
    have step : (acc <<< 7) % 18446744073709551616 ||| b.val = acc * 128 + b.val := by
      rw [← shl7_or acc b.val hblt, Nat.shiftLeft_eq, show (2 : Nat) ^ 7 = 128 by norm_num,
        Nat.mod_eq_of_lt hlt]
    simp only [List.cons_append, readUInt64Loop, ReadByte, hb', if_false, stopBitFold_cons, step,
      and_127_of_not_stop b hb]
    exact ih m _ (j + 1) (fun x hx => hpre x (List.mem_cons_of_mem _ hx))
      (by simp at hn; omega) hacc' (by simp at hj; omega)

/-- The buffer ends, without a stop byte, before the iterations do: the 64-bit
loop returns `io.EOF` and has drained the buffer. -/
theorem readUInt64Loop_eof (pre : List Byte) :
    ∀ (n acc : Nat), (∀ b ∈ pre, ¬ hasStopBit b) → pre.length < n →
      readUInt64Loop n acc pre = (.error .EOF, []) := by
  induction pre with
  | nil =>
    intro n acc _ hn
    obtain ⟨m, rfl⟩ : ∃ m, n = m + 1 := ⟨n - 1, by simp at hn; omega⟩
    simp [readUInt64Loop, ReadByte]
  | cons b pre ih =>
    intro n acc hpre hn
    obtain ⟨m, rfl⟩ : ∃ m, n = m + 1 := ⟨n - 1, by simp at hn; omega⟩
    have hb' : ¬ (b.val &&& 128 = 128) := hpre b (List.mem_cons_self _ _)
    simp only [readUInt64Loop, ReadByte, hb', if_false]
    exact ih m _ (fun x hx => hpre x (List.mem_cons_of_mem _ hx)) (by simp at hn; omega)

/-- As many bytes without a stop bit as there are iterations left: the 64-bit
loop returns its overflow error and leaves what follows those bytes. -/
theorem readUInt64Loop_exhaust (rest : Buffer) (pre : List Byte) :
    ∀ (n acc : Nat), (∀ b ∈ pre, ¬ hasStopBit b) → pre.length = n →
      readUInt64Loop n acc (pre ++ rest) = (.error (.Errorf uint64OverflowMsg), rest) := by
  induction pre with
  | nil =>
    intro n acc _ hn
    subst hn
    simp [readUInt64Loop]
  | cons b pre ih =>
    intro n acc hpre hn
    subst hn
    have hb' : ¬ (b.val &&& 128 = 128) := hpre b (List.mem_cons_self _ _)
    simp only [List.cons_append, List.length_cons, readUInt64Loop, ReadByte, hb', if_false]
    exact ih _ _ (fun x hx => hpre x (List.mem_cons_of_mem _ hx)) rfl

/-- A successful 32-bit read: stop byte within the first four bytes. -/
theorem ReadUInt32_stop (pre : List Byte) (s : Byte) (rest : Buffer)
    (hpre : ∀ b ∈ pre, ¬ hasStopBit b) (hs : hasStopBit s) (hk : pre.length + 1 ≤ 4) :
    ReadUInt32 (pre ++ s :: rest) = (.ok ⟨stopBitFold 0 (pre ++ [s])⟩, rest) :=
  readUInt32Loop_stop s rest hs pre 4 0 0 hpre (by omega) (by norm_num) (by omega)

/-- A successful 64-bit read: stop byte within the first eight bytes. -/
theorem ReadUInt64_stop (pre : List Byte) (s : Byte) (rest : Buffer)
    (hpre : ∀ b ∈ pre, ¬ hasStopBit b) (hs : hasStopBit s) (hk : pre.length + 1 ≤ 8) :
    ReadUInt64 (pre ++ s :: rest) = (.ok ⟨stopBitFold 0 (pre ++ [s])⟩, rest) :=
  readUInt64Loop_stop s rest hs pre 8 0 0 hpre (by omega) (by norm_num) (by omega)

/-! ## The reference encoder and the optional readers -/

theorem byteOf_val_of_lt (n : Nat) (h : n < 256) : (byteOf n).val = n := by
  simp [byteOf, Nat.mod_eq_of_lt h]

theorem and_127_eq_mod (x : Nat) : x &&& 127 = x % 128 :=
  Nat.and_pow_two_sub_one_eq_mod x 7

/-- What `stopBitGroups` produces when the fuel covers the digits of `v`: bytes
without a stop bit, at most `j` of them when `v < 128 ^ j`, which accumulate to
`v`. -/
theorem stopBitGroups_spec :
    ∀ (fuel v j : Nat), v < 128 ^ fuel → v < 128 ^ j →
      (∀ b ∈ stopBitGroups fuel v, ¬ hasStopBit b)
        ∧ (stopBitGroups fuel v).length ≤ j
        ∧ ∀ acc, stopBitFold acc (stopBitGroups fuel v)
            = acc * 128 ^ (stopBitGroups fuel v).length + v := by
  intro fuel
  induction fuel with
  | zero =>
    intro v j hv _
    have : v = 0 := by simpa using hv
    subst this
    simp [stopBitGroups, stopBitFold_nil]
  | succ fuel ih =>
    intro v j hv hj
    by_cases h0 : v = 0
    · subst h0
      simp [stopBitGroups, stopBitFold_nil]
    · obtain ⟨i, rfl⟩ : ∃ i, j = i + 1 := by
        cases j with
        | zero => simp at hj; omega
        | succ i => exact ⟨i, rfl⟩
      have hdf : v / 128 < 128 ^ fuel := by
        rw [pow_succ] at hv; omega
      have hdi : v / 128 < 128 ^ i := by
        rw [pow_succ] at hj; omega
      obtain ⟨hstop, hlen, hfold⟩ := ih (v / 128) i hdf hdi
      have hval : (byteOf (v % 128)).val = v % 128 := byteOf_val_of_lt _ (by omega)
      simp only [stopBitGroups, h0, if_false]
      refine ⟨?_, ?_, ?_⟩
      · intro b hb
        rcases List.mem_append.1 hb with hb | hb
        · exact hstop b hb
        · have hb' : b = byteOf (v % 128) := by simpa using hb
          rw [hb', hasStopBit_iff_le, hval]
          omega
      · simp only [List.length_append, List.length_singleton]
        omega
      · intro acc
        rw [stopBitFold_append, hfold, stopBitFold_cons, stopBitFold_nil, hval, and_127_eq_mod,
          List.length_append, List.length_singleton, pow_succ]
        have : v % 128 % 128 = v % 128 := by omega
        rw [this]
        have hv' : v = 128 * (v / 128) + v % 128 := (Nat.div_add_mod v 128).symm
        generalize v / 128 = q at *
        generalize v % 128 = r at *
        rw [hv']
        ring

/-- The reference encoder is a stop-bit encoding of every `v`: its bytes
accumulate to `v`, whatever the size of `v`. -/
theorem stopBitFold_encodeStopBit (v : Nat) : stopBitFold 0 (encodeStopBit v) = v := by
  have hfuel : v / 128 < 128 ^ v :=
    lt_of_le_of_lt (Nat.div_le_self v 128) (Nat.lt_pow_self (by norm_num) v)
  obtain ⟨_, _, hfold⟩ := stopBitGroups_spec v (v / 128) v hfuel hfuel
  have hval : (byteOf (v % 128 + 128)).val = v % 128 + 128 := byteOf_val_of_lt _ (by omega)
  rw [encodeStopBit, stopBitFold_append, hfold, stopBitFold_cons, stopBitFold_nil, hval,
    and_127_eq_mod]
  omega

/-- Round trip on `ReadUInt32`: a value of at most four 7-bit groups is read
back from its minimal stop-bit encoding, whatever follows it. -/
theorem ReadUInt32_encodeStopBit (v : Nat) (rest : Buffer) (hv : v < 128 ^ 4) :
    ReadUInt32 (encodeStopBit v ++ rest) = (.ok ⟨v⟩, rest) := by
  have hfuel : v / 128 < 128 ^ v :=
    lt_of_le_of_lt (Nat.div_le_self v 128) (Nat.lt_pow_self (by norm_num) v)
  have hd3 : v / 128 < 128 ^ 3 := by norm_num at hv ⊢; omega
  obtain ⟨hstop, hlen, hfold⟩ := stopBitGroups_spec v (v / 128) 3 hfuel hd3
  have hval : (byteOf (v % 128 + 128)).val = v % 128 + 128 := byteOf_val_of_lt _ (by omega)
  have hs : hasStopBit (byteOf (v % 128 + 128)) := by
    rw [hasStopBit_iff_le, hval]; omega
  have hread := ReadUInt32_stop _ _ rest hstop hs (by omega)
  simp only [encodeStopBit, List.append_assoc, List.singleton_append]
  rw [hread, stopBitFold_append, hfold, stopBitFold_cons, stopBitFold_nil, hval, and_127_eq_mod]
  have : (0 * 128 ^ (stopBitGroups v (v / 128)).length + v / 128) * 128
      + (v % 128 + 128) % 128 = v := by omega
  rw [this]

/-- Every value the 32-bit loop returns fits in 32 bits. -/
theorem readUInt32Loop_lt :
    ∀ (n acc : Nat) (buf : Buffer) (r : UInt32Value) (rest : Buffer),
      readUInt32Loop n acc buf = (.ok r, rest) → r.Value < 4294967296 := by
  intro n
  induction n with
  | zero => intro acc buf r rest h; simp [readUInt32Loop] at h
  | succ n ih =>
    intro acc buf r rest h
    cases buf with
    | nil => simp [readUInt32Loop, ReadByte] at h
    | cons b bs =>
      simp only [readUInt32Loop, ReadByte] at h
      split at h
      · simp only [Prod.mk.injEq, Except.ok.injEq] at h
        rw [← h.1]
        have h1 : (acc <<< 7) % 4294967296 < 2 ^ 32 := Nat.mod_lt _ (by norm_num)
        have h2 : b.val &&& 127 < 2 ^ 32 := lt_trans (and_127_lt b) (by norm_num)
        exact Nat.or_lt_two_pow h1 h2
      · exact ih _ _ _ _ h

/-- Every value the 64-bit loop returns fits in 64 bits. -/
theorem readUInt64Loop_lt :
    ∀ (n acc : Nat) (buf : Buffer) (r : UInt64Value) (rest : Buffer),
      readUInt64Loop n acc buf = (.ok r, rest) → r.Value < 18446744073709551616 := by
  intro n
  induction n with
  | zero => intro acc buf r rest h; simp [readUInt64Loop] at h
  | succ n ih =>
    intro acc buf r rest h
    cases buf with
    | nil => simp [readUInt64Loop, ReadByte] at h
    | cons b bs =>
      simp only [readUInt64Loop, ReadByte] at h
      split at h
      · simp only [Prod.mk.injEq, Except.ok.injEq] at h
        rw [← h.1]
        have h1 : (acc <<< 7) % 18446744073709551616 < 2 ^ 64 := Nat.mod_lt _ (by norm_num)
        have h2 : b.val &&& 127 < 2 ^ 64 := lt_trans (and_127_lt b) (by norm_num)
        exact Nat.or_lt_two_pow h1 h2
      · exact ih _ _ _ _ h

/-- What `ReadOptionalUInt32` returns, by the outcome of `ReadUInt32`. -/
theorem ReadOptionalUInt32_eq (buf : Buffer) :
    ReadOptionalUInt32 buf =
      match ReadUInt32 buf with
      | (.error err, rest) => (.error err, rest)
      | (.ok r, rest) =>
        if r.Value = 0 then (.ok (.null {}), rest) else (.ok (.uint32 ⟨r.Value - 1⟩), rest) := by
  unfold ReadOptionalUInt32
  rcases hread : ReadUInt32 buf with ⟨res, rest⟩
  cases res with
  | error err => rfl
  | ok r =>
    have hlt := readUInt32Loop_lt 4 0 buf r rest hread
    by_cases h0 : r.Value = 0
    · simp [h0]
    · have hsub : (r.Value + 4294967296 - 1) % 4294967296 = r.Value - 1 := by omega
      simp only [h0, if_false, hsub]

/-- What `ReadOptionalUInt64` returns, by the outcome of `ReadUInt64`. -/
theorem ReadOptionalUInt64_eq (buf : Buffer) :
    ReadOptionalUInt64 buf =
      match ReadUInt64 buf with
      | (.error err, rest) => (.error err, rest)
      | (.ok r, rest) =>
        if r.Value = 0 then (.ok (.null {}), rest) else (.ok (.uint64 ⟨r.Value - 1⟩), rest) := by
  unfold ReadOptionalUInt64
  rcases hread : ReadUInt64 buf with ⟨res, rest⟩
  cases res with
  | error err => rfl
  | ok r =>
    have hlt := readUInt64Loop_lt 8 0 buf r rest hread
    by_cases h0 : r.Value = 0
    · simp [h0]
    · have hsub : (r.Value + 18446744073709551616 - 1) % 18446744073709551616 = r.Value - 1 := by omega
      simp only [h0, if_false, hsub]

/-! ## Claims -/

/-- C1: when the first byte with the high bit set is the k-th byte of the
buffer (`pre` holds the `k - 1` bytes before it, `s` is that byte) and
`1 ≤ k ≤ 4`, `ReadUInt32` returns without error the fold
`acc = (acc << 7) | (byte & 0x7F)` over those `k` bytes starting from 0, which
is the sum of `(b_i & 0x7F) * 128^(k-i)`, and leaves the bytes after the stop
byte; the bytes 0x12 0x88 decode to 2312. -/
theorem c1_ReadUInt32_fold (pre : List Byte) (s : Byte) (rest : Buffer)
    (hpre : ∀ b ∈ pre, ¬ hasStopBit b) (hs : hasStopBit s) (hk : pre.length + 1 ≤ 4) :
    ReadUInt32 (pre ++ s :: rest) = (.ok ⟨stopBitFold 0 (pre ++ [s])⟩, rest)
      ∧ stopBitFold 0 (pre ++ [s]) = base128Sum (pre ++ [s])
      ∧ ReadUInt32 [0x12, 0x88] = (.ok ⟨2312⟩, []) := by
  refine ⟨ReadUInt32_stop pre s rest hpre hs hk, ?_, by decide⟩
  rw [stopBitFold_eq_sum]
  simp

/-- Witness of C1: the three bytes 0x01 0x02 0x83 followed by 0x55. -/
theorem c1_ReadUInt32_fold_witness :
    ReadUInt32 ([0x01, 0x02] ++ 0x83 :: [0x55]) = (.ok ⟨stopBitFold 0 ([0x01, 0x02] ++ [0x83])⟩, [0x55])
      ∧ stopBitFold 0 ([0x01, 0x02] ++ [0x83]) = base128Sum ([0x01, 0x02] ++ [0x83])
      ∧ ReadUInt32 [0x12, 0x88] = (.ok ⟨2312⟩, []) :=
  c1_ReadUInt32_fold [0x01, 0x02] 0x83 [0x55] (by simp [hasStopBit]) (by decide) (by decide)



/-- C2: the minimal stop-bit encoding of 2^28, a value below 2^32, is the
five bytes 0x01 0x00 0x00 0x00 0x80; `ReadUInt32` reads four bytes without a
stop bit, returns its overflow error and leaves the stop byte unread, where
the claim has it succeed with 2^28. -/
theorem c2_ReadUInt32_rejects_five_byte_value :
    encodeStopBit 268435456 = [0x01, 0x00, 0x00, 0x00, 0x80]
      ∧ 268435456 ≤ 4294967295
      ∧ ReadUInt32 (encodeStopBit 268435456) = (.error (.Errorf uint32OverflowMsg), [0x80]) := by
  refine ⟨by decide, by decide, ?_⟩
  rw [show encodeStopBit 268435456 = [0x01, 0x00, 0x00, 0x00, 0x80] by decide]
  rfl

/-- C3: on a buffer of at least five bytes none of whose first five bytes has
the high bit set, `ReadUInt32` returns its overflow error (after the fourth
byte, leaving the rest of the buffer) and no value at all. -/
theorem c3_ReadUInt32_overflow_error (buf : Buffer) (hlen : 5 ≤ buf.length)
    (hno : ∀ b ∈ buf.take 5, ¬ hasStopBit b) :
    ReadUInt32 buf = (.error (.Errorf uint32OverflowMsg), buf.drop 4)
      ∧ ∀ (r : UInt32Value) (rest : Buffer), ReadUInt32 buf ≠ (.ok r, rest) := by
  have hpre : ∀ b ∈ buf.take 4, ¬ hasStopBit b := by
    intro b hb
    have h45 : buf.take 4 = (buf.take 5).take 4 := by simp [List.take_take]
    rw [h45] at hb
    exact hno b (List.mem_of_mem_take hb)
  have hl4 : (buf.take 4).length = 4 := by simp; omega
  have key : ReadUInt32 buf = (.error (.Errorf uint32OverflowMsg), buf.drop 4) := by
    have h := readUInt32Loop_exhaust (buf.drop 4) (buf.take 4) 4 0 hpre hl4
    rwa [List.take_append_drop] at h
  refine ⟨key, ?_⟩
  intro r rest h
  rw [key] at h
  simp at h

/-- Witness of C3: six bytes without a stop bit. -/
theorem c3_ReadUInt32_overflow_error_witness :
    ReadUInt32 [0x01, 0x02, 0x03, 0x04, 0x05, 0x06]
        = (.error (.Errorf uint32OverflowMsg), List.drop 4 [0x01, 0x02, 0x03, 0x04, 0x05, 0x06])
      ∧ ∀ (r : UInt32Value) (rest : Buffer),
          ReadUInt32 [0x01, 0x02, 0x03, 0x04, 0x05, 0x06] ≠ (.ok r, rest) :=
  c3_ReadUInt32_overflow_error [0x01, 0x02, 0x03, 0x04, 0x05, 0x06] (by decide) (by decide)

/-- C4: on every buffer `ReadOptionalUInt32` fails exactly when `ReadUInt32`
fails (with the same error) and leaves the same buffer; when `ReadUInt32`
succeeds with raw value `r` it returns null if and only if `r = 0` and the
unsigned value `r - 1` otherwise; the same holds of `ReadOptionalUInt64` and
`ReadUInt64`; the byte 0x80 decodes to null and 0x81 to 0. -/
theorem c4_ReadOptional_null_or_pred (buf : Buffer) :
    (∀ e, (ReadOptionalUInt32 buf).1 = .error e ↔ (ReadUInt32 buf).1 = .error e)
      ∧ (ReadOptionalUInt32 buf).2 = (ReadUInt32 buf).2
      ∧ (∀ r, (ReadUInt32 buf).1 = .ok r →
          ((ReadOptionalUInt32 buf).1 = .ok (.null {}) ↔ r.Value = 0)
            ∧ (r.Value ≠ 0 → (ReadOptionalUInt32 buf).1 = .ok (.uint32 ⟨r.Value - 1⟩)))
      ∧ (∀ e, (ReadOptionalUInt64 buf).1 = .error e ↔ (ReadUInt64 buf).1 = .error e)
      ∧ (ReadOptionalUInt64 buf).2 = (ReadUInt64 buf).2
      ∧ (∀ r, (ReadUInt64 buf).1 = .ok r →
          ((ReadOptionalUInt64 buf).1 = .ok (.null {}) ↔ r.Value = 0)
            ∧ (r.Value ≠ 0 → (ReadOptionalUInt64 buf).1 = .ok (.uint64 ⟨r.Value - 1⟩)))
      ∧ ReadOptionalUInt32 [0x80] = (.ok (.null {}), [])
      ∧ ReadOptionalUInt32 [0x81] = (.ok (.uint32 ⟨0⟩), [])
      ∧ ReadOptionalUInt64 [0x80] = (.ok (.null {}), [])
      ∧ ReadOptionalUInt64 [0x81] = (.ok (.uint64 ⟨0⟩), []) := by
  have h32 := ReadOptionalUInt32_eq buf
  have h64 := ReadOptionalUInt64_eq buf
  refine ⟨?_, ?_, ?_, ?_, ?_, ?_, by decide, by decide, by decide, by decide⟩
  · intro e
    rcases hread : ReadUInt32 buf with ⟨res, rest⟩
    rw [hread] at h32
    cases res with
    | error err => simp [h32]
    | ok r => by_cases h0 : r.Value = 0 <;> simp [h32, h0]
  · rcases hread : ReadUInt32 buf with ⟨res, rest⟩
    rw [hread] at h32
    cases res with
    | error err => simp [h32]
    | ok r => by_cases h0 : r.Value = 0 <;> simp [h32, h0]
  · intro r hr
    rcases hread : ReadUInt32 buf with ⟨res, rest⟩
    rw [hread] at h32 hr
    simp only at hr
    subst hr
    by_cases h0 : r.Value = 0 <;> simp [h32, h0]
  · intro e
    rcases hread : ReadUInt64 buf with ⟨res, rest⟩
    rw [hread] at h64
    cases res with
    | error err => simp [h64]
    | ok r => by_cases h0 : r.Value = 0 <;> simp [h64, h0]
  · rcases hread : ReadUInt64 buf with ⟨res, rest⟩
    rw [hread] at h64
    cases res with
    | error err => simp [h64]
    | ok r => by_cases h0 : r.Value = 0 <;> simp [h64, h0]
  · intro r hr
    rcases hread : ReadUInt64 buf with ⟨res, rest⟩
    rw [hread] at h64 hr
    simp only at hr
    subst hr
    by_cases h0 : r.Value = 0 <;> simp [h64, h0]

/-- Witness of C4: the bytes 0x01 0x82 hold the raw value 130, read as 129. -/
theorem c4_ReadOptional_null_or_pred_witness :
    (ReadOptionalUInt32 [0x01, 0x82]).1 = .ok (.uint32 ⟨130 - 1⟩) :=
  ((c4_ReadOptional_null_or_pred [0x01, 0x82]).2.2.1 ⟨130⟩ (by decide)).2 (by decide)

/-- C5, counterexample: for v = 2^32 - 1 the reference encoder sends 2^32 as
the five bytes 0x10 0x00 0x00 0x00 0x80 and `ReadOptionalUInt32` returns the
overflow error of `ReadUInt32`, not v. -/
theorem c5_roundtrip_fails_at_max :
    encodeNullable (some 4294967295) = [0x10, 0x00, 0x00, 0x00, 0x80]
      ∧ ReadOptionalUInt32 (encodeNullable (some 4294967295))
          = (.error (.Errorf uint32OverflowMsg), [0x80])
      ∧ ¬ (ReadOptionalUInt32 (encodeNullable (some 4294967295))).1
          = .ok (.uint32 ⟨4294967295⟩) := by
  have henc : encodeNullable (some 4294967295) = [0x10, 0x00, 0x00, 0x00, 0x80] := by decide
  have hread : ReadOptionalUInt32 [0x10, 0x00, 0x00, 0x00, 0x80]
      = (.error (.Errorf uint32OverflowMsg), [0x80]) := rfl
  refine ⟨henc, ?_, ?_⟩
  · rw [henc, hread]
  · rw [henc, hread]
    simp

/-- C5, amended: with the reference encoder enc(null) = [0x80] and enc(v) = the
minimal stop-bit encoding of v + 1, `ReadOptionalUInt32` returns null on
enc(null) and, for every v with 0 <= v <= 2^28 - 2 (v + 1 fits four 7-bit
groups), succeeds on enc(v), followed by anything, with the value v, leaving
what follows; for v = 2^32 - 1, sent as 2^32, it returns an error. -/
theorem c5_nullable_roundtrip (v : Nat) (rest : Buffer) (hv : v ≤ 268435454) :
    ReadOptionalUInt32 (encodeNullable none) = (.ok (.null {}), [])
      ∧ ReadOptionalUInt32 (encodeNullable (some v) ++ rest) = (.ok (.uint32 ⟨v⟩), rest)
      ∧ (ReadOptionalUInt32 (encodeNullable (some 4294967295))).1
          = .error (.Errorf uint32OverflowMsg) := by
  refine ⟨by decide, ?_, ?_⟩
  · rw [ReadOptionalUInt32_eq, encodeNullable,
      ReadUInt32_encodeStopBit (v + 1) rest (by norm_num; omega)]
    simp
  · rw [show encodeNullable (some 4294967295) = [0x10, 0x00, 0x00, 0x00, 0x80] by decide]
    rfl

/-- Witness of C5: the value 300 followed by the byte 0x7F. -/
theorem c5_nullable_roundtrip_witness :
    ReadOptionalUInt32 (encodeNullable none) = (.ok (.null {}), [])
      ∧ ReadOptionalUInt32 (encodeNullable (some 300) ++ [0x7F]) = (.ok (.uint32 ⟨300⟩), [0x7F])
      ∧ (ReadOptionalUInt32 (encodeNullable (some 4294967295))).1
          = .error (.Errorf uint32OverflowMsg) :=
  c5_nullable_roundtrip 300 [0x7F] (by decide)

/-- C6: the nine bytes 0x01 0x00 .. 0x00 0x80 hold the value 2^56, which fits
in 64 bits, with the stop bit on the ninth byte; `ReadUInt64` reads eight
bytes, returns its overflow error and leaves the stop byte unread, where the
claim has it succeed with 2^56. -/
theorem c6_ReadUInt64_rejects_nine_byte_value :
    stopBitFold 0 [0x01, 0x00, 0x00, 0x00, 0x00, 0x00, 0x00, 0x00, 0x80] = 72057594037927936
      ∧ encodeStopBit 72057594037927936
          = [0x01, 0x00, 0x00, 0x00, 0x00, 0x00, 0x00, 0x00, 0x80]
      ∧ 72057594037927936 < 18446744073709551616
      ∧ ReadUInt64 [0x01, 0x00, 0x00, 0x00, 0x00, 0x00, 0x00, 0x00, 0x80]
          = (.error (.Errorf uint64OverflowMsg), [0x80]) :=
  ⟨by decide, by decide, by decide, rfl⟩

/-- C7: a buffer, possibly empty, that ends before any byte with the high bit
set makes `ReadUInt32` return the end-of-input error when it is shorter than
4 bytes and `ReadUInt64` when it is shorter than 8 bytes; neither returns a
value, and the buffer is left empty. -/
theorem c7_underflow_is_error (buf : Buffer) (hno : ∀ b ∈ buf, ¬ hasStopBit b) :
    (buf.length < 4 → ReadUInt32 buf = (.error .EOF, []))
      ∧ (buf.length < 8 → ReadUInt64 buf = (.error .EOF, [])) :=
  ⟨fun h => readUInt32Loop_eof buf 4 0 hno h, fun h => readUInt64Loop_eof buf 8 0 hno h⟩

/-- Witness of C7: the three bytes 0x01 0x02 0x03. -/
theorem c7_underflow_is_error_witness :
    ReadUInt32 [0x01, 0x02, 0x03] = (.error .EOF, [])
      ∧ ReadUInt64 [0x01, 0x02, 0x03] = (.error .EOF, []) :=
  ⟨(c7_underflow_is_error [0x01, 0x02, 0x03] (by decide)).1 (by decide),
    (c7_underflow_is_error [0x01, 0x02, 0x03] (by decide)).2 (by decide)⟩

/-- C8: on the single byte 0xC1 (the letter A with the stop bit) `ReadString`
returns the empty string without error and consumes nothing, where the claim
has it return "A" and consume the byte. -/
theorem c8_ReadString_returns_empty :
    ReadString [0xC1] = (.ok ⟨[]⟩, [0xC1])
      ∧ ∀ buf : Buffer, ReadString buf = (.ok ⟨[]⟩, buf) :=
  ⟨rfl, fun _ => rfl⟩

/-- C9: for the int64 delta d = 2^32 and the uint32 prior value p = 0 the sum
d + p = 2^32 lies outside [0, 2^32 - 1], yet `Int64Value.Add` returns the
wrapped uint32 value 0 without error. -/
theorem c9_Int64Value_Add_wraps :
    Int64Value.Add ⟨4294967296⟩ (.RawValue (.uint32 0)) = .ok (.RawValue (.uint32 0))
      ∧ ¬ ((4294967296 : Int) + 0 ≤ 4294967295) := by
  decide

/-- C10: for all uint32 values a and b, `UInt32Value.Add` returns a + b
without error when a + b <= 2^32 - 1 and returns an error, the one built by
`fmt.Errorf` for a uint32 overflow, when a + b > 2^32 - 1. -/
theorem c10_UInt32Value_Add (a b : Nat) (ha : a ≤ 4294967295) (hb : b ≤ 4294967295) :
    (a + b ≤ 4294967295 →
        UInt32Value.Add ⟨a⟩ (.RawValue (.uint32 b)) = .ok (.RawValue (.uint32 (a + b))))
      ∧ (a + b > 4294967295 →
        UInt32Value.Add ⟨a⟩ (.RawValue (.uint32 b))
          = .error (.Errorf "%v + %v would overflow uint32")) := by
  have hta : toInt64 (a : Int) = a := by unfold toInt64; omega
  have htb : toInt64 (b : Int) = b := by unfold toInt64; omega
  simp only [UInt32Value.Add, FixValue.Get, addValueWithinUInt32Constraints, hta, htb]
  have hub : toUInt64 (b : Int) = b := by unfold toUInt64; omega
  have hua : toUInt64 (a : Int) = a := by unfold toUInt64; omega
  rw [hub, hua]
  constructor
  · intro hsum
    have hsa : toInt64 ((b : Int) + a) = b + a := by unfold toInt64; omega
    have hsb : toInt64 ((a : Int) + b) = a + b := by unfold toInt64; omega
    have hc : toUInt32 ((a : Int) + b) = a + b := by unfold toUInt32; omega
    rw [if_neg (by unfold MaxUint32; omega), hsa, if_neg (by omega), hsb, hc]
  · intro hsum
    rw [if_pos (by unfold MaxUint32; omega)]

/-- Witness of C10: 2^32 - 1 plus 0 is returned, 2^32 - 1 plus 1 is an error. -/
theorem c10_UInt32Value_Add_witness :
    UInt32Value.Add ⟨4294967295⟩ (.RawValue (.uint32 0)) = .ok (.RawValue (.uint32 (4294967295 + 0)))
      ∧ UInt32Value.Add ⟨4294967295⟩ (.RawValue (.uint32 1))
          = .error (.Errorf "%v + %v would overflow uint32") :=
  ⟨(c10_UInt32Value_Add 4294967295 0 (by decide) (by decide)).1 (by decide),
    (c10_UInt32Value_Add 4294967295 1 (by decide) (by decide)).2 (by decide)⟩

/-! ## The additions of `value.go` -/

/-- `addValueWithinInt32Constraints` on an `int64` first operand and an operand
in `int32` range: the exact sum when it is an `int32`, its overflow error
otherwise. -/
theorem addValueWithinInt32Constraints_spec (r v : Int)
    (hr : -9223372036854775808 ≤ r ∧ r ≤ 9223372036854775807)
    (hv : -2147483648 ≤ v ∧ v ≤ 2147483647) :
    (-2147483648 ≤ r + v ∧ r + v ≤ 2147483647 →
        addValueWithinInt32Constraints r v = .ok (.RawValue (.int32 (r + v))))
      ∧ (¬ (-2147483648 ≤ r + v ∧ r + v ≤ 2147483647) →
        addValueWithinInt32Constraints r v = .error (.Errorf "%v + %v would overflow int32")) := by
  unfold addValueWithinInt32Constraints
  constructor
  · intro hsum
    have h1 : ¬ (r > 0 ∧ v > toInt64 (MaxInt32 - r)) := by
      unfold toInt64 MaxInt32; omega
    have h2 : ¬ (v < toInt64 (MinInt32 - r)) := by
      unfold toInt64 MinInt32; omega
    have h3 : toInt32 (toInt64 (r + v)) = r + v := by
      unfold toInt32 toInt64; omega
    rw [if_neg h1, if_neg h2, h3]
  · intro hsum
    by_cases h1 : r > 0 ∧ v > toInt64 (MaxInt32 - r)
    · rw [if_pos h1]
    · have h2 : v < toInt64 (MinInt32 - r) := by
        unfold toInt64 MaxInt32 at h1
        unfold toInt64 MinInt32
        omega
      rw [if_neg h1, if_pos h2]

theorem toInt64_of_int32 (x : Int) (hx : -2147483648 ≤ x ∧ x ≤ 2147483647) :
    toInt64 x = x := by
  unfold toInt64; omega

/-! ## Claims on the additions -/

/-- C11: for every int64 d and every int32 p, `Int64Value{d}.Add(p)`, and
`Int32Value{a}.Add(p)` for every int32 a, returns the exact mathematical sum
as an int32 when it lies in [-2^31, 2^31-1] and an error otherwise: the int64
intermediates MaxInt32 - d, MinInt32 - d and d + p never change the verdict.
The error is the one built by `fmt.Errorf` for an int32 overflow. -/
theorem c11_add_int32_exact (d a p : Int)
    (hd : -9223372036854775808 ≤ d ∧ d ≤ 9223372036854775807)
    (ha : -2147483648 ≤ a ∧ a ≤ 2147483647)
    (hp : -2147483648 ≤ p ∧ p ≤ 2147483647) :
    (-2147483648 ≤ d + p ∧ d + p ≤ 2147483647 →
        Int64Value.Add ⟨d⟩ (.RawValue (.int32 p)) = .ok (.RawValue (.int32 (d + p))))
      ∧ (¬ (-2147483648 ≤ d + p ∧ d + p ≤ 2147483647) →
        Int64Value.Add ⟨d⟩ (.RawValue (.int32 p)) = .error (.Errorf "%v + %v would overflow int32"))
      ∧ (-2147483648 ≤ a + p ∧ a + p ≤ 2147483647 →
        Int32Value.Add ⟨a⟩ (.RawValue (.int32 p)) = .ok (.RawValue (.int32 (a + p))))
      ∧ (¬ (-2147483648 ≤ a + p ∧ a + p ≤ 2147483647) →
        Int32Value.Add ⟨a⟩ (.RawValue (.int32 p))
          = .error (.Errorf "%v + %v would overflow int32")) := by
  have hd64 := addValueWithinInt32Constraints_spec d p hd hp
  have ha64 := addValueWithinInt32Constraints_spec a p ⟨by omega, by omega⟩ hp
  simp only [Int64Value.Add, Int32Value.Add, FixValue.Get, toInt64_of_int32 p hp,
    toInt64_of_int32 a ha]
  exact ⟨hd64.1, hd64.2, ha64.1, ha64.2⟩

/-- Witness of C11: 2^40 plus -5 is an error, 2^31 plus -1 is 2^31 - 1,
-2^31 plus -1 is an error and 7 plus -9 is -2. -/
theorem c11_add_int32_exact_witness :
    Int64Value.Add ⟨1099511627776⟩ (.RawValue (.int32 (-5)))
      = .error (.Errorf "%v + %v would overflow int32")
      ∧ Int64Value.Add ⟨2147483648⟩ (.RawValue (.int32 (-1)))
          = .ok (.RawValue (.int32 (2147483648 + -1)))
      ∧ Int32Value.Add ⟨-2147483648⟩ (.RawValue (.int32 (-1)))
        = .error (.Errorf "%v + %v would overflow int32")
      ∧ Int32Value.Add ⟨7⟩ (.RawValue (.int32 (-9))) = .ok (.RawValue (.int32 (7 + -9))) :=
  ⟨(c11_add_int32_exact 1099511627776 7 (-5) (by decide) (by decide) (by decide)).2.1
      (by decide),
    (c11_add_int32_exact 2147483648 7 (-1) (by decide) (by decide) (by decide)).1 (by decide),
    (c11_add_int32_exact 0 (-2147483648) (-1) (by decide) (by decide) (by decide)).2.2.2
      (by decide),
    (c11_add_int32_exact 0 7 (-9) (by decide) (by decide) (by decide)).2.2.1 (by decide)⟩

/-- C12: for every arbitrary-precision integer d, `BigInt{d}.Add(p)` with an
int64 operand p returns the exact sum d + p as an int64 when it lies in
[-2^63, 2^63-1] and an error otherwise; with a uint64 operand q it returns the
exact sum as a uint64 when it lies in [0, 2^64-1] and an error otherwise: the
test is made on the unbounded sum, before narrowing. The errors are the ones
built by `fmt.Errorf` for an int64 and for a uint64 overflow. -/
theorem c12_BigInt_Add_exact (d p : Int) (q : Nat)
    (_hp : -9223372036854775808 ≤ p ∧ p ≤ 9223372036854775807)
    (_hq : q ≤ 18446744073709551615) :
    (-9223372036854775808 ≤ d + p ∧ d + p ≤ 9223372036854775807 →
        BigInt.Add ⟨d⟩ (.RawValue (.int64 p)) = .ok (.RawValue (.int64 (d + p))))
      ∧ (¬ (-9223372036854775808 ≤ d + p ∧ d + p ≤ 9223372036854775807) →
        BigInt.Add ⟨d⟩ (.RawValue (.int64 p)) = .error (.Errorf "%v + %v would overflow int64"))
      ∧ (0 ≤ d + q ∧ d + q ≤ 18446744073709551615 →
        BigInt.Add ⟨d⟩ (.RawValue (.uint64 q)) = .ok (.RawValue (.uint64 (d + q).toNat)))
      ∧ (¬ (0 ≤ d + q ∧ d + q ≤ 18446744073709551615) →
        BigInt.Add ⟨d⟩ (.RawValue (.uint64 q))
          = .error (.Errorf "%v + %v would overflow uint64")) := by
  simp only [BigInt.Add, FixValue.Get, IsInt64, IsUint64, decide_eq_true_eq]
  refine ⟨?_, ?_, ?_, ?_⟩
  · intro h
    have h3 : toInt64 (d + p) = d + p := by unfold toInt64; omega
    rw [if_neg (by simpa using h), h3]
  · intro h
    rw [if_pos (by simpa using h)]
  · intro h
    have h3 : toUInt64 (d + q) = (d + q).toNat := by unfold toUInt64; omega
    rw [if_neg (by simpa using h), h3]
  · intro h
    rw [if_pos (by simpa using h)]

/-- Witness of C12: 2^63 plus -1 is 2^63 - 1, 2^63 plus 0 is an error,
-1 plus 2^64-1 is 2^64 - 2 and a negative sum is an error. -/
theorem c12_BigInt_Add_exact_witness :
    BigInt.Add ⟨9223372036854775808⟩ (.RawValue (.int64 (-1)))
        = .ok (.RawValue (.int64 (9223372036854775808 + -1)))
      ∧ BigInt.Add ⟨9223372036854775808⟩ (.RawValue (.int64 0))
        = .error (.Errorf "%v + %v would overflow int64")
      ∧ BigInt.Add ⟨-1⟩ (.RawValue (.uint64 18446744073709551615))
        = .ok (.RawValue (.uint64 ((-1 : Int) + (18446744073709551615 : Nat)).toNat))
      ∧ BigInt.Add ⟨-6⟩ (.RawValue (.uint64 5))
        = .error (.Errorf "%v + %v would overflow uint64") :=
  ⟨(c12_BigInt_Add_exact 9223372036854775808 (-1) 0 (by decide) (by decide)).1 (by decide),
    (c12_BigInt_Add_exact 9223372036854775808 0 0 (by decide) (by decide)).2.1 (by decide),
    (c12_BigInt_Add_exact (-1) 0 18446744073709551615 (by decide) (by decide)).2.2.1
      (by decide),
    (c12_BigInt_Add_exact (-6) 0 5 (by decide) (by decide)).2.2.2 (by decide)⟩

/-- C13: a zero delta returns the prior value unchanged and without error:
`Int64Value{0}.Add(p)` is p for every uint32 p and every int32 p, and
`BigInt{0}.Add(p)` is p for every int64 p and every uint64 p. -/
theorem c13_zero_delta_identity (u : Nat) (i : Int) (l : Int) (w : Nat)
    (hu : u ≤ 4294967295) (hi : -2147483648 ≤ i ∧ i ≤ 2147483647)
    (hl : -9223372036854775808 ≤ l ∧ l ≤ 9223372036854775807)
    (hw : w ≤ 18446744073709551615) :
    Int64Value.Add ⟨0⟩ (.RawValue (.uint32 u)) = .ok (.RawValue (.uint32 u))
      ∧ Int64Value.Add ⟨0⟩ (.RawValue (.int32 i)) = .ok (.RawValue (.int32 i))
      ∧ BigInt.Add ⟨0⟩ (.RawValue (.int64 l)) = .ok (.RawValue (.int64 l))
      ∧ BigInt.Add ⟨0⟩ (.RawValue (.uint64 w)) = .ok (.RawValue (.uint64 w)) := by
  refine ⟨?_, ?_, ?_, ?_⟩
  · have hu64 : toInt64 (u : Int) = u := by unfold toInt64; omega
    have h1 : ¬ ((0 : Int) > 0 ∧ toUInt64 (u : Int)
        > (MaxUint32 + 18446744073709551616 - toUInt64 0) % 18446744073709551616) := by
      omega
    have h2 : ¬ (0 > toInt64 ((u : Int) + 0)) := by unfold toInt64; omega
    have h3 : toUInt32 (toInt64 (0 + (u : Int))) = u := by unfold toUInt32 toInt64; omega
    simp only [Int64Value.Add, FixValue.Get, addValueWithinUInt32Constraints, hu64]
    rw [if_neg h1, if_neg h2, h3]
  · have h := (addValueWithinInt32Constraints_spec 0 i (by omega) hi).1 (by omega)
    simp only [Int64Value.Add, FixValue.Get, toInt64_of_int32 i hi]
    rw [h, Int.zero_add]
  · have h3 : toInt64 (0 + l) = l := by unfold toInt64; omega
    simp only [BigInt.Add, FixValue.Get, IsInt64, decide_eq_true_eq]
    rw [if_neg (by simp; omega), h3]
  · have h3 : toUInt64 (0 + (w : Int)) = w := by unfold toUInt64; omega
    simp only [BigInt.Add, FixValue.Get, IsUint64, decide_eq_true_eq]
    rw [if_neg (by simp; omega), h3]

/-- Witness of C13: the largest operand of each of the four types. -/
theorem c13_zero_delta_identity_witness :
    Int64Value.Add ⟨0⟩ (.RawValue (.uint32 4294967295)) = .ok (.RawValue (.uint32 4294967295))
      ∧ Int64Value.Add ⟨0⟩ (.RawValue (.int32 2147483647))
          = .ok (.RawValue (.int32 2147483647))
      ∧ BigInt.Add ⟨0⟩ (.RawValue (.int64 9223372036854775807))
          = .ok (.RawValue (.int64 9223372036854775807))
      ∧ BigInt.Add ⟨0⟩ (.RawValue (.uint64 18446744073709551615))
          = .ok (.RawValue (.uint64 18446744073709551615)) :=
  c13_zero_delta_identity 4294967295 2147483647 9223372036854775807 18446744073709551615
    (by decide) (by decide) (by decide) (by decide)

/-- C14: with an operand whose raw value is an int32, `UInt32Value.Add` does
not return: its type assertion `.(uint32)` panics; so does `Int32Value.Add`
with a uint32 operand. The claim has them return a value or an error, as
`Int64Value.Add` and `BigInt.Add` do on an operand they do not support. -/
theorem c14_Add_type_assertion_panics :
    UInt32Value.Add ⟨1⟩ (.RawValue (.int32 1)) = .error .Panic
      ∧ Int32Value.Add ⟨1⟩ (.RawValue (.uint32 1)) = .error .Panic
      ∧ Int64Value.Add ⟨1⟩ (.RawValue (.int64 1))
          = .error (.Errorf "unsupported type to add int64 to: %#v")
      ∧ BigInt.Add ⟨1⟩ (.RawValue (.uint32 1))
          = .error (.Errorf "unsupported type to add big int to: %#v") :=
  ⟨rfl, rfl, rfl, rfl⟩

/-! ## `Deserialise` and the dictionary -/

/-- On success `Deserialise` has written the value it returns under the name
of the field, and nothing else. -/
theorem Deserialise_ok_dictionary {PMap : Type} (fast : ByteVectorReaders)
    (field : FieldUnicodeString PMap) (inputSource : Buffer) (pMap : PMap)
    (dictionary : Dictionary) (v : FixValue) (rest : Buffer) (pMap1 : PMap)
    (dictionary1 : Dictionary)
    (h : field.Deserialise fast inputSource pMap dictionary = (.ok v, rest, pMap1, dictionary1)) :
    dictionary1 = dictionary.SetValue field.FieldDetails.Name v := by
  unfold FieldUnicodeString.Deserialise at h
  simp only at h
  split at h
  · split at h
    · simp at h
    · split at h
      · simp at h
      · simp only [Prod.mk.injEq, Except.ok.injEq] at h
        rw [← h.2.2.2, ← h.1]
  · split at h
    · simp at h
    · simp only [Prod.mk.injEq, Except.ok.injEq] at h
      rw [← h.2.2.2, ← h.1]

/-- On failure `Deserialise` hands the dictionary back as it received it. -/
theorem Deserialise_error_dictionary {PMap : Type} (fast : ByteVectorReaders)
    (field : FieldUnicodeString PMap) (inputSource : Buffer) (pMap : PMap)
    (dictionary : Dictionary) (err : Error) (rest : Buffer) (pMap1 : PMap)
    (dictionary1 : Dictionary)
    (h : field.Deserialise fast inputSource pMap dictionary
      = (.error err, rest, pMap1, dictionary1)) :
    dictionary1 = dictionary := by
  unfold FieldUnicodeString.Deserialise at h
  simp only at h
  split at h
  · split at h
    · simp only [Prod.mk.injEq] at h
      exact h.2.2.2.symm
    · split at h
      · simp only [Prod.mk.injEq] at h
        exact h.2.2.2.symm
      · simp at h
  · split at h
    · simp only [Prod.mk.injEq] at h
      exact h.2.2.2.symm
    · simp at h

/-- What `Deserialise` does when the operation reports that no value is to be
read: the outcome of `GetNotEncodedValue`, the buffer untouched. -/
theorem Deserialise_not_read {PMap : Type} (fast : ByteVectorReaders)
    (field : FieldUnicodeString PMap) (inputSource : Buffer) (pMap : PMap)
    (dictionary : Dictionary) (h : (field.Operation.ShouldReadValue pMap).1 = false) :
    field.Deserialise fast inputSource pMap dictionary =
      match field.Operation.GetNotEncodedValue (field.Operation.ShouldReadValue pMap).2
          field.FieldDetails.Required (dictionary.GetValue field.FieldDetails.Name) with
      | (.error err, pMap1) => (.error err, inputSource, pMap1, dictionary)
      | (.ok transformedValue, pMap1) =>
        (.ok transformedValue, inputSource, pMap1,
          dictionary.SetValue field.FieldDetails.Name transformedValue) := by
  unfold FieldUnicodeString.Deserialise
  rcases hs : field.Operation.ShouldReadValue pMap with ⟨flag, pMap0⟩
  rw [hs] at h
  simp only at h
  subst h
  rfl

/-! ## Claims on `Deserialise` -/

/-- C15: for every operation, presence map, dictionary and input buffer, if
`FieldUnicodeString.Deserialise` returns a value v without error (v possibly
null), then afterwards the dictionary entry for the name of the field holds
exactly v and the entry of every other name is unchanged. -/
theorem c15_Deserialise_writes_back {PMap : Type} (fast : ByteVectorReaders)
    (field : FieldUnicodeString PMap) (inputSource : Buffer) (pMap : PMap)
    (dictionary : Dictionary) (v : FixValue) (rest : Buffer) (pMap1 : PMap)
    (dictionary1 : Dictionary)
    (h : field.Deserialise fast inputSource pMap dictionary = (.ok v, rest, pMap1, dictionary1)) :
    dictionary1.GetValue field.FieldDetails.Name = some v
      ∧ ∀ name, name ≠ field.FieldDetails.Name →
          dictionary1.GetValue name = dictionary.GetValue name := by
  rw [Deserialise_ok_dictionary fast field inputSource pMap dictionary v rest pMap1 dictionary1 h]
  constructor
  · simp [Dictionary.GetValue, Dictionary.SetValue]
  · intro name hne
    simp [Dictionary.GetValue, Dictionary.SetValue, hne]

/-- Witness of C15: the sample field reads the string "A" into an empty
dictionary. -/
theorem c15_Deserialise_writes_back_witness :
    (emptyDictionary.SetValue "MessageType" (.RawValue (.string [0x41]))).GetValue
        sampleField.FieldDetails.Name = some (.RawValue (.string [0x41]))
      ∧ ∀ name, name ≠ sampleField.FieldDetails.Name →
          (emptyDictionary.SetValue "MessageType" (.RawValue (.string [0x41]))).GetValue name
            = emptyDictionary.GetValue name :=
  c15_Deserialise_writes_back sampleReaders sampleField [0x41] [true] emptyDictionary
    (.RawValue (.string [0x41])) [] []
    (emptyDictionary.SetValue "MessageType" (.RawValue (.string [0x41]))) rfl

/-- C16: for every operation, presence map, dictionary and input buffer, if
`FieldUnicodeString.Deserialise` returns an error (from the byte-vector read,
from `Operation.Apply` or from `Operation.GetNotEncodedValue`), the
dictionary is left exactly as it was before the call. -/
theorem c16_Deserialise_error_keeps_dictionary {PMap : Type} (fast : ByteVectorReaders)
    (field : FieldUnicodeString PMap) (inputSource : Buffer) (pMap : PMap)
    (dictionary : Dictionary) (err : Error) (rest : Buffer) (pMap1 : PMap)
    (dictionary1 : Dictionary)
    (h : field.Deserialise fast inputSource pMap dictionary
      = (.error err, rest, pMap1, dictionary1)) :
    dictionary1 = dictionary :=
  Deserialise_error_dictionary fast field inputSource pMap dictionary err rest pMap1
    dictionary1 h

/-- Witness of C16: the sample field is to read a value from an empty buffer. -/
theorem c16_Deserialise_error_keeps_dictionary_witness :
    sampleField.Deserialise sampleReaders [] [true] emptyDictionary
        = (.error .EOF, [], [], emptyDictionary)
      ∧ emptyDictionary = emptyDictionary :=
  ⟨rfl, c16_Deserialise_error_keeps_dictionary sampleReaders sampleField [] [true]
    emptyDictionary .EOF [] [] emptyDictionary rfl⟩

/-- C17: for every field whose operation reports `ShouldReadValue(pMap)` false,
`FieldUnicodeString.Deserialise` reads no byte (the buffer is handed back
unchanged, an empty buffer causes no error of its own) and its result is that
of `Operation.GetNotEncodedValue(pMap, Required, previous)`, previous being
the dictionary entry of the name of the field; result, presence map and
dictionary are the same whatever the buffer and the readers. -/
theorem c17_Deserialise_not_encoded {PMap : Type} (fast : ByteVectorReaders)
    (field : FieldUnicodeString PMap) (inputSource : Buffer) (pMap : PMap)
    (dictionary : Dictionary) (h : (field.Operation.ShouldReadValue pMap).1 = false) :
    (field.Deserialise fast inputSource pMap dictionary).2.1 = inputSource
      ∧ (field.Deserialise fast inputSource pMap dictionary).1
          = (field.Operation.GetNotEncodedValue (field.Operation.ShouldReadValue pMap).2
              field.FieldDetails.Required (dictionary.GetValue field.FieldDetails.Name)).1
      ∧ ∀ (fast2 : ByteVectorReaders) (inputSource2 : Buffer),
          (field.Deserialise fast2 inputSource2 pMap dictionary).1
              = (field.Deserialise fast inputSource pMap dictionary).1
            ∧ (field.Deserialise fast2 inputSource2 pMap dictionary).2.2
              = (field.Deserialise fast inputSource pMap dictionary).2.2 := by
  have key := fun f b => Deserialise_not_read f field b pMap dictionary h
  refine ⟨?_, ?_, ?_⟩
  · rw [key]
    split <;> rfl
  · rw [key]
    split <;> simp_all
  · intro fast2 inputSource2
    rw [key, key]
    split <;> simp

/-- Witness of C17: the sample field with its presence bit clear, on an empty
buffer and a dictionary that holds "A" under its name. -/
theorem c17_Deserialise_not_encoded_witness :
    (sampleField.Deserialise sampleReaders [] [false]
        (emptyDictionary.SetValue "MessageType" (.RawValue (.string [0x41])))).1
      = .ok (.RawValue (.string [0x41])) :=
  (c17_Deserialise_not_encoded sampleReaders sampleField [] [false]
    (emptyDictionary.SetValue "MessageType" (.RawValue (.string [0x41]))) rfl).2.1.trans rfl

/-! ## The loaders -/

/-- The operator kinds `loaduint32.Load` has a case for. -/
theorem loaduint32_Load_supported (ToUInt32 : String → Except Error Nat) (ty : String)
    (attrs : List (String × String)) (nested : List Tag) (outerType : String)
    (outerAttrs : List (String × String)) (fieldDetails : Properties)
    (hconv : HasValue (.mk ty attrs nested) = true →
      ∃ v, ToUInt32 (Tag.attribute (.mk ty attrs nested) ValueAttribute) = .ok v)
    (hconst : ty = ConstantOperation → HasValue (.mk ty attrs nested) = true)
    (hty : ty ∈ [ConstantOperation, DefaultOperation, CopyOperation, IncrementOperation,
      DeltaOperation]) :
    ∃ f, loaduint32.Load ToUInt32 (.mk outerType outerAttrs [.mk ty attrs nested]) fieldDetails
      = .ok f := by
  simp only [loaduint32.Load, Tag.NestedTags, Tag.TagType]
  simp only [HasValue, Tag.attribute, Tag.Attributes] at hconv hconst ⊢
  by_cases hv : (List.lookup ValueAttribute attrs).isSome = true
  · obtain ⟨v, hvv⟩ := hconv hv
    simp only [List.mem_cons, List.mem_singleton, List.not_mem_nil, or_false] at hty
    rcases hty with h | h | h | h | h <;> subst h <;>
      simp [hv, hvv, ConstantOperation, DefaultOperation, CopyOperation, IncrementOperation,
        DeltaOperation]
  · have hc : ty ≠ ConstantOperation := fun h => hv (hconst h)
    simp only [List.mem_cons, List.mem_singleton, List.not_mem_nil, or_false] at hty
    rcases hty with h | h | h | h | h
    · exact absurd h hc
    all_goals
      subst h
      simp [hv, ConstantOperation, DefaultOperation, CopyOperation, IncrementOperation,
        DeltaOperation]

/-- Any other operator kind is answered by the unsupported-operation error of
`loaduint32.Load`. -/
theorem loaduint32_Load_unsupported (ToUInt32 : String → Except Error Nat) (ty : String)
    (attrs : List (String × String)) (nested : List Tag) (outerType : String)
    (outerAttrs : List (String × String)) (fieldDetails : Properties)
    (hty : ty ∉ [ConstantOperation, DefaultOperation, CopyOperation, IncrementOperation,
      DeltaOperation]) :
    loaduint32.Load ToUInt32 (.mk outerType outerAttrs [.mk ty attrs nested]) fieldDetails
      = .error (.Errorf unsupportedOperationMsg) := by
  simp only [List.mem_cons, List.mem_singleton, List.not_mem_nil, or_false, not_or] at hty
  obtain ⟨h1, h2, h3, h4, h5⟩ := hty
  simp [loaduint32.Load, Tag.NestedTags, Tag.TagType, h1, h2, h3, h4, h5]

/-- The operator kinds `loadbytevector.Load` has a case for. -/
theorem loadbytevector_Load_supported (ToByteVector : String → Except Error (List Byte))
    (ty : String) (attrs : List (String × String)) (nested : List Tag) (outerType : String)
    (outerAttrs : List (String × String)) (fieldDetails : Properties)
    (hconv : HasValue (.mk ty attrs nested) = true →
      ∃ v, ToByteVector (Tag.attribute (.mk ty attrs nested) ValueAttribute) = .ok v)
    (hconst : ty = ConstantOperation → HasValue (.mk ty attrs nested) = true)
    (hty : ty ∈ [ConstantOperation, DefaultOperation, CopyOperation, TailOperation,
      DeltaOperation]) :
    ∃ f, loadbytevector.Load ToByteVector (.mk outerType outerAttrs [.mk ty attrs nested])
      fieldDetails = .ok f := by
  simp only [loadbytevector.Load, Tag.NestedTags, Tag.TagType]
  simp only [HasValue, Tag.attribute, Tag.Attributes] at hconv hconst ⊢
  by_cases hv : (List.lookup ValueAttribute attrs).isSome = true
  · obtain ⟨v, hvv⟩ := hconv hv
    simp only [List.mem_cons, List.mem_singleton, List.not_mem_nil, or_false] at hty
    rcases hty with h | h | h | h | h <;> subst h <;>
      simp [hv, hvv, ConstantOperation, DefaultOperation, CopyOperation, TailOperation,
        DeltaOperation]
  · have hc : ty ≠ ConstantOperation := fun h => hv (hconst h)
    simp only [List.mem_cons, List.mem_singleton, List.not_mem_nil, or_false] at hty
    rcases hty with h | h | h | h | h
    · exact absurd h hc
    all_goals
      subst h
      simp [hv, ConstantOperation, DefaultOperation, CopyOperation, TailOperation,
        DeltaOperation]

/-- Any other operator kind is answered by the unsupported-operation error of
`loadbytevector.Load`. -/
theorem loadbytevector_Load_unsupported (ToByteVector : String → Except Error (List Byte))
    (ty : String) (attrs : List (String × String)) (nested : List Tag) (outerType : String)
    (outerAttrs : List (String × String)) (fieldDetails : Properties)
    (hty : ty ∉ [ConstantOperation, DefaultOperation, CopyOperation, TailOperation,
      DeltaOperation]) :
    loadbytevector.Load ToByteVector (.mk outerType outerAttrs [.mk ty attrs nested])
      fieldDetails = .error (.Errorf unsupportedOperationMsg) := by
  simp only [List.mem_cons, List.mem_singleton, List.not_mem_nil, or_false, not_or] at hty
  obtain ⟨h1, h2, h3, h4, h5⟩ := hty
  simp [loadbytevector.Load, Tag.NestedTags, Tag.TagType, h1, h2, h3, h4, h5]

/-! ## Claims on the loaders -/

/-- C18: for every field tag without a nested operator tag and every field
properties value, `loaduint32.Load` and `loadbytevector.Load` succeed and
return the field built by `New(fieldDetails)`, whose operator is None and
whose properties are the ones passed in; so the uInt32 field of the heartbeat
template loads as a plain field with ID 34. -/
theorem c18_Load_without_operator (ToUInt32 : String → Except Error Nat)
    (ToByteVector : String → Except Error (List Byte)) (ty : String)
    (attrs : List (String × String)) (fieldDetails : Properties) :
    loaduint32.Load ToUInt32 (.mk ty attrs []) fieldDetails = .ok (fielduint32.New fieldDetails)
      ∧ (fielduint32.New fieldDetails).Operation = .None
      ∧ (fielduint32.New fieldDetails).FieldDetails = fieldDetails
      ∧ loadbytevector.Load ToByteVector (.mk ty attrs []) fieldDetails
          = .ok (fieldbytevector.New fieldDetails)
      ∧ (fieldbytevector.New fieldDetails).Operation = .None
      ∧ (fieldbytevector.New fieldDetails).FieldDetails = fieldDetails
      ∧ loaduint32.Load ToUInt32 (.mk "uInt32" [("name", "MsgSeqNum"), ("id", "34")] [])
          ⟨34, "MsgSeqNum", true⟩ = .ok ⟨⟨34, "MsgSeqNum", true⟩, .None⟩ :=
  ⟨rfl, rfl, rfl, rfl, rfl, rfl, rfl⟩

/-- C19, counterexample: a uInt32 field tag whose single nested tag is a tail
operator without a value attribute is refused by `loaduint32.Load` with the
unsupported-operation error. -/
theorem c19_loaduint32_refuses_tail :
    loaduint32.Load (fun _ => .ok 0) (.mk "uInt32" [] [.mk TailOperation [] []])
        ⟨34, "MsgSeqNum", true⟩ = .error (.Errorf unsupportedOperationMsg)
      ∧ ¬ ∃ f, loaduint32.Load (fun _ => .ok 0) (.mk "uInt32" [] [.mk TailOperation [] []])
        ⟨34, "MsgSeqNum", true⟩ = .ok f := by
  have h : loaduint32.Load (fun _ => .ok 0) (.mk "uInt32" [] [.mk TailOperation [] []])
      ⟨34, "MsgSeqNum", true⟩ = .error (.Errorf unsupportedOperationMsg) := by decide
  refine ⟨h, ?_⟩
  rintro ⟨f, hf⟩
  rw [h] at hf
  simp at hf

/-- C19, amended: for a field tag with exactly one nested operator tag whose
value attribute (when present) converts successfully and, for constant, is
present, `loaduint32.Load` succeeds exactly for constant, default, copy,
increment and delta and returns the unsupported-operation error for tail (and
any other tag), while `loadbytevector.Load` succeeds exactly for constant,
default, copy, tail and delta and returns the unsupported-operation error for
increment (and any other tag). -/
theorem c19_loader_operator_kinds (ToUInt32 : String → Except Error Nat)
    (ToByteVector : String → Except Error (List Byte)) (ty : String)
    (attrs : List (String × String)) (nested : List Tag) (outerType : String)
    (outerAttrs : List (String × String)) (fieldDetails : Properties)
    (hconv32 : HasValue (.mk ty attrs nested) = true →
      ∃ v, ToUInt32 (Tag.attribute (.mk ty attrs nested) ValueAttribute) = .ok v)
    (hconvBV : HasValue (.mk ty attrs nested) = true →
      ∃ v, ToByteVector (Tag.attribute (.mk ty attrs nested) ValueAttribute) = .ok v)
    (hconst : ty = ConstantOperation → HasValue (.mk ty attrs nested) = true) :
    ((∃ f, loaduint32.Load ToUInt32 (.mk outerType outerAttrs [.mk ty attrs nested])
          fieldDetails = .ok f)
        ↔ ty ∈ [ConstantOperation, DefaultOperation, CopyOperation, IncrementOperation,
            DeltaOperation])
      ∧ (ty ∉ [ConstantOperation, DefaultOperation, CopyOperation, IncrementOperation,
            DeltaOperation] →
          loaduint32.Load ToUInt32 (.mk outerType outerAttrs [.mk ty attrs nested])
            fieldDetails = .error (.Errorf unsupportedOperationMsg))
      ∧ (ty = TailOperation →
          loaduint32.Load ToUInt32 (.mk outerType outerAttrs [.mk ty attrs nested])
            fieldDetails = .error (.Errorf unsupportedOperationMsg))
      ∧ ((∃ f, loadbytevector.Load ToByteVector (.mk outerType outerAttrs [.mk ty attrs nested])
          fieldDetails = .ok f)
        ↔ ty ∈ [ConstantOperation, DefaultOperation, CopyOperation, TailOperation,
            DeltaOperation])
      ∧ (ty ∉ [ConstantOperation, DefaultOperation, CopyOperation, TailOperation,
            DeltaOperation] →
          loadbytevector.Load ToByteVector (.mk outerType outerAttrs [.mk ty attrs nested])
            fieldDetails = .error (.Errorf unsupportedOperationMsg))
      ∧ (ty = IncrementOperation →
          loadbytevector.Load ToByteVector (.mk outerType outerAttrs [.mk ty attrs nested])
            fieldDetails = .error (.Errorf unsupportedOperationMsg)) := by
  have u32 := loaduint32_Load_unsupported ToUInt32 ty attrs nested outerType outerAttrs
    fieldDetails
  have ubv := loadbytevector_Load_unsupported ToByteVector ty attrs nested outerType outerAttrs
    fieldDetails
  refine ⟨⟨?_, ?_⟩, u32, ?_, ⟨?_, ?_⟩, ubv, ?_⟩
  · rintro ⟨f, hf⟩
    by_contra hty
    rw [u32 hty] at hf
    simp at hf
  · exact loaduint32_Load_supported ToUInt32 ty attrs nested outerType outerAttrs fieldDetails
      hconv32 hconst
  · intro h
    exact u32 (by subst h; decide)
  · rintro ⟨f, hf⟩
    by_contra hty
    rw [ubv hty] at hf
    simp at hf
  · exact loadbytevector_Load_supported ToByteVector ty attrs nested outerType outerAttrs
      fieldDetails hconvBV hconst
  · intro h
    exact ubv (by subst h; decide)

/-- Witness of C19: an increment operator with the value attribute "1". -/
theorem c19_loader_operator_kinds_witness :
    (∃ f, loaduint32.Load (fun _ => .ok 1)
        (.mk "uInt32" [] [.mk IncrementOperation [("value", "1")] []])
        ⟨34, "MsgSeqNum", true⟩ = .ok f)
      ∧ loadbytevector.Load (fun _ => .ok [0x01])
        (.mk "byteVector" [] [.mk IncrementOperation [("value", "1")] []])
        ⟨34, "MsgSeqNum", true⟩ = .error (.Errorf unsupportedOperationMsg) :=
  ⟨(c19_loader_operator_kinds (fun _ => .ok 1) (fun _ => .ok [0x01]) IncrementOperation
      [("value", "1")] [] "uInt32" [] ⟨34, "MsgSeqNum", true⟩
      (fun _ => ⟨1, rfl⟩) (fun _ => ⟨[0x01], rfl⟩) (fun h => absurd h (by decide))).1.2
      (by decide),
    (c19_loader_operator_kinds (fun _ => .ok 1) (fun _ => .ok [0x01]) IncrementOperation
      [("value", "1")] [] "byteVector" [] ⟨34, "MsgSeqNum", true⟩
      (fun _ => ⟨1, rfl⟩) (fun _ => ⟨[0x01], rfl⟩) (fun h => absurd h (by decide))).2.2.2.2.2
      rfl⟩

/-- C20: for every field tag whose single nested operator tag is a constant
operator without a value attribute, `loaduint32.Load` and
`loadbytevector.Load` return an error and no field, whereas default, copy and
delta operators without a value attribute load successfully, as the field
with that operator and no value. -/
theorem c20_constant_needs_value (ToUInt32 : String → Except Error Nat)
    (ToByteVector : String → Except Error (List Byte)) (attrs : List (String × String))
    (nested : List Tag) (outerType : String) (outerAttrs : List (String × String))
    (fieldDetails : Properties) (hno : attrs.lookup ValueAttribute = none) :
    loaduint32.Load ToUInt32 (.mk outerType outerAttrs [.mk ConstantOperation attrs nested])
        fieldDetails = .error (.Errorf noConstantValueMsg)
      ∧ loadbytevector.Load ToByteVector
        (.mk outerType outerAttrs [.mk ConstantOperation attrs nested])
        fieldDetails = .error (.Errorf noConstantValueMsg)
      ∧ loaduint32.Load ToUInt32 (.mk outerType outerAttrs [.mk DefaultOperation attrs nested])
        fieldDetails = .ok (fielduint32.NewDefaultOperation fieldDetails)
      ∧ loaduint32.Load ToUInt32 (.mk outerType outerAttrs [.mk CopyOperation attrs nested])
        fieldDetails = .ok (fielduint32.NewCopyOperation fieldDetails)
      ∧ loaduint32.Load ToUInt32 (.mk outerType outerAttrs [.mk DeltaOperation attrs nested])
        fieldDetails = .ok (fielduint32.NewDeltaOperation fieldDetails)
      ∧ loadbytevector.Load ToByteVector
        (.mk outerType outerAttrs [.mk DefaultOperation attrs nested])
        fieldDetails = .ok (fieldbytevector.NewDefaultOperation fieldDetails)
      ∧ loadbytevector.Load ToByteVector
        (.mk outerType outerAttrs [.mk CopyOperation attrs nested])
        fieldDetails = .ok (fieldbytevector.NewCopyOperation fieldDetails)
      ∧ loadbytevector.Load ToByteVector
        (.mk outerType outerAttrs [.mk DeltaOperation attrs nested])
        fieldDetails = .ok (fieldbytevector.NewDeltaOperation fieldDetails) := by
  refine ⟨?_, ?_, ?_, ?_, ?_, ?_, ?_, ?_⟩ <;>
    simp [loaduint32.Load, loadbytevector.Load, Tag.NestedTags, Tag.TagType, HasValue,
      Tag.Attributes, hno, ConstantOperation, DefaultOperation, CopyOperation,
      IncrementOperation, TailOperation, DeltaOperation]

/-- Witness of C20: operator tags that carry only a dictionary attribute. -/
theorem c20_constant_needs_value_witness :
    loaduint32.Load (fun _ => .ok 0)
        (.mk "uInt32" [] [.mk ConstantOperation [("dictionary", "global")] []])
        ⟨34, "MsgSeqNum", true⟩ = .error (.Errorf noConstantValueMsg)
      ∧ loadbytevector.Load (fun _ => .ok [])
        (.mk "uInt32" [] [.mk DeltaOperation [("dictionary", "global")] []])
        ⟨34, "MsgSeqNum", true⟩ = .ok (fieldbytevector.NewDeltaOperation ⟨34, "MsgSeqNum", true⟩) :=
  ⟨(c20_constant_needs_value (fun _ => .ok 0) (fun _ => .ok []) [("dictionary", "global")] []
      "uInt32" [] ⟨34, "MsgSeqNum", true⟩ (by decide)).1,
    (c20_constant_needs_value (fun _ => .ok 0) (fun _ => .ok []) [("dictionary", "global")] []
      "uInt32" [] ⟨34, "MsgSeqNum", true⟩ (by decide)).2.2.2.2.2.2.2⟩

/-! ## `ReadValue` and the bytes a read consumes -/

/-- One iteration of the loop of `ReadValue`, through `ReadByte`. -/
theorem readValueLoop_step (value : List Byte) (inputSource : Buffer) :
    readValueLoop value inputSource =
      match ReadByte inputSource with
      | (.error err, rest) => (.error err, rest)
      | (.ok b, rest) =>
        if b.val &&& 128 = 128 then
          (.ok (value ++ [⟨(b.val <<< 1) % 256, Nat.mod_lt _ (by decide)⟩]), rest)
        else
          readValueLoop (value ++ [⟨(b.val <<< 1) % 256, Nat.mod_lt _ (by decide)⟩]) rest := by
  cases inputSource <;> rfl

theorem shl_one_byte (b : Byte) :
    (⟨(b.val <<< 1) % 256, Nat.mod_lt _ (by decide)⟩ : Byte) = shiftLeftOne b := by
  simp [shiftLeftOne, Nat.shiftLeft_eq]

/-- The loop of `ReadValue` up to the first stop byte: every byte read is
appended shifted, the bytes after the stop byte are left. -/
theorem readValueLoop_stop (s : Byte) (rest : Buffer) (hs : hasStopBit s) (pre : List Byte) :
    ∀ value : List Byte, (∀ b ∈ pre, ¬ hasStopBit b) →
      readValueLoop value (pre ++ s :: rest)
        = (.ok (value ++ (pre ++ [s]).map shiftLeftOne), rest) := by
  induction pre with
  | nil =>
    intro value _
    have hs' : s.val &&& 128 = 128 := hs
    simp [readValueLoop, hs', shl_one_byte]
  | cons b pre ih =>
    intro value hpre
    have hb' : ¬ (b.val &&& 128 = 128) := hpre b (List.mem_cons_self _ _)
    have step : readValueLoop value (b :: (pre ++ s :: rest))
        = readValueLoop (value ++ [shiftLeftOne b]) (pre ++ s :: rest) := by
      rw [readValueLoop_step]
      simp only [ReadByte, hb', if_false, shl_one_byte]
    rw [List.cons_append, step, ih _ (fun x hx => hpre x (List.mem_cons_of_mem _ hx))]
    simp

/-- The loop of `ReadValue` on a buffer without a stop byte: `io.EOF`. -/
theorem readValueLoop_eof (buf : List Byte) :
    ∀ value : List Byte, (∀ b ∈ buf, ¬ hasStopBit b) →
      readValueLoop value buf = (.error .EOF, []) := by
  induction buf with
  | nil => intro value _; rfl
  | cons b buf ih =>
    intro value hbuf
    have hb' : ¬ (b.val &&& 128 = 128) := hbuf b (List.mem_cons_self _ _)
    simp only [readValueLoop, hb', if_false]
    exact ih _ (fun x hx => hbuf x (List.mem_cons_of_mem _ hx))

/-- A success of the 32-bit loop has read bytes without a stop bit, fewer than
the iterations left, then a stop byte, and leaves what follows it. -/
theorem readUInt32Loop_ok_split :
    ∀ (n acc : Nat) (buf : Buffer) (r : UInt32Value) (rest : Buffer),
      readUInt32Loop n acc buf = (.ok r, rest) →
      ∃ (pre : List Byte) (s : Byte), buf = pre ++ s :: rest ∧ (∀ b ∈ pre, ¬ hasStopBit b)
        ∧ hasStopBit s ∧ pre.length < n := by
  intro n
  induction n with
  | zero => intro acc buf r rest h; simp [readUInt32Loop] at h
  | succ n ih =>
    intro acc buf r rest h
    cases buf with
    | nil => simp [readUInt32Loop, ReadByte] at h
    | cons b bs =>
      simp only [readUInt32Loop, ReadByte] at h
      by_cases hb : b.val &&& 128 = 128
      · rw [if_pos hb] at h
        simp only [Prod.mk.injEq] at h
        exact ⟨[], b, by simp [h.2], by simp, hb, by simp⟩
      · rw [if_neg hb] at h
        obtain ⟨pre, s, hbuf, hpre, hs, hlen⟩ := ih _ _ _ _ h
        refine ⟨b :: pre, s, by simp [hbuf], ?_, hs, by simp; omega⟩
        intro x hx
        rcases List.mem_cons.1 hx with hx | hx
        · subst hx; exact hb
        · exact hpre x hx

/-- A success of the 64-bit loop has read bytes without a stop bit, fewer than
the iterations left, then a stop byte, and leaves what follows it. -/
theorem readUInt64Loop_ok_split :
    ∀ (n acc : Nat) (buf : Buffer) (r : UInt64Value) (rest : Buffer),
      readUInt64Loop n acc buf = (.ok r, rest) →
      ∃ (pre : List Byte) (s : Byte), buf = pre ++ s :: rest ∧ (∀ b ∈ pre, ¬ hasStopBit b)
        ∧ hasStopBit s ∧ pre.length < n := by
  intro n
  induction n with
  | zero => intro acc buf r rest h; simp [readUInt64Loop] at h
  | succ n ih =>
    intro acc buf r rest h
    cases buf with
    | nil => simp [readUInt64Loop, ReadByte] at h
    | cons b bs =>
      simp only [readUInt64Loop, ReadByte] at h
      by_cases hb : b.val &&& 128 = 128
      · rw [if_pos hb] at h
        simp only [Prod.mk.injEq] at h
        exact ⟨[], b, by simp [h.2], by simp, hb, by simp⟩
      · rw [if_neg hb] at h
        obtain ⟨pre, s, hbuf, hpre, hs, hlen⟩ := ih _ _ _ _ h
        refine ⟨b :: pre, s, by simp [hbuf], ?_, hs, by simp; omega⟩
        intro x hx
        rcases List.mem_cons.1 hx with hx | hx
        · subst hx; exact hb
        · exact hpre x hx

/-- A successful `ReadUInt32`: the bytes consumed end with the first stop
byte, what remains is the suffix after it, and the value is their fold. -/
theorem ReadUInt32_ok_split (buf : Buffer) (r : UInt32Value) (rest : Buffer)
    (h : ReadUInt32 buf = (.ok r, rest)) :
    ∃ (pre : List Byte) (s : Byte), buf = pre ++ s :: rest ∧ (∀ b ∈ pre, ¬ hasStopBit b)
      ∧ hasStopBit s ∧ pre.length + 1 ≤ 4 ∧ r.Value = stopBitFold 0 (pre ++ [s]) := by
  obtain ⟨pre, s, hbuf, hpre, hs, hlen⟩ := readUInt32Loop_ok_split 4 0 buf r rest h
  refine ⟨pre, s, hbuf, hpre, hs, by omega, ?_⟩
  have h2 := ReadUInt32_stop pre s rest hpre hs (by omega)
  rw [← hbuf, h] at h2
  simp only [Prod.mk.injEq, Except.ok.injEq] at h2
  rw [h2.1]

/-- A successful `ReadUInt64`: the bytes consumed end with the first stop
byte, what remains is the suffix after it, and the value is their fold. -/
theorem ReadUInt64_ok_split (buf : Buffer) (r : UInt64Value) (rest : Buffer)
    (h : ReadUInt64 buf = (.ok r, rest)) :
    ∃ (pre : List Byte) (s : Byte), buf = pre ++ s :: rest ∧ (∀ b ∈ pre, ¬ hasStopBit b)
      ∧ hasStopBit s ∧ pre.length + 1 ≤ 8 ∧ r.Value = stopBitFold 0 (pre ++ [s]) := by
  obtain ⟨pre, s, hbuf, hpre, hs, hlen⟩ := readUInt64Loop_ok_split 8 0 buf r rest h
  refine ⟨pre, s, hbuf, hpre, hs, by omega, ?_⟩
  have h2 := ReadUInt64_stop pre s rest hpre hs (by omega)
  rw [← hbuf, h] at h2
  simp only [Prod.mk.injEq, Except.ok.injEq] at h2
  rw [h2.1]

/-- A buffer that `ReadUInt32` reads to its end is read the same way in front
of any other bytes, which are left. -/
theorem ReadUInt32_append (e1 e2 : Buffer) (v1 : UInt32Value)
    (h1 : ReadUInt32 e1 = (.ok v1, [])) : ReadUInt32 (e1 ++ e2) = (.ok v1, e2) := by
  obtain ⟨pre, s, hbuf, hpre, hs, hlen, hval⟩ := ReadUInt32_ok_split e1 v1 [] h1
  have h2 := ReadUInt32_stop pre s e2 hpre hs hlen
  rw [hbuf, List.append_assoc, List.cons_append, List.nil_append, h2, ← hval]

/-- A buffer that `ReadUInt64` reads to its end is read the same way in front
of any other bytes, which are left. -/
theorem ReadUInt64_append (e1 e2 : Buffer) (v1 : UInt64Value)
    (h1 : ReadUInt64 e1 = (.ok v1, [])) : ReadUInt64 (e1 ++ e2) = (.ok v1, e2) := by
  obtain ⟨pre, s, hbuf, hpre, hs, hlen, hval⟩ := ReadUInt64_ok_split e1 v1 [] h1
  have h2 := ReadUInt64_stop pre s e2 hpre hs hlen
  rw [hbuf, List.append_assoc, List.cons_append, List.nil_append, h2, ← hval]

/-! ## Claims on `ReadValue` and on the bytes consumed -/

/-- C21: `ReadValue` returns on every buffer. When the first byte with the
high bit set is the k-th byte (`pre` holds the `k - 1` bytes before it, `s` is
that byte) it returns exactly k bytes, the i-th being the i-th input byte
shifted left by one bit modulo 256, and leaves the bytes after `s`; the bytes
0x12 0x88 give [0x24, 0x10]. On a buffer without such a byte it returns an
error (the end of input) and no bytes. -/
theorem c21_ReadValue_shifts (pre : List Byte) (s : Byte) (rest : Buffer)
    (hpre : ∀ b ∈ pre, ¬ hasStopBit b) (hs : hasStopBit s) :
    ReadValue (pre ++ s :: rest) = (.ok ((pre ++ [s]).map shiftLeftOne), rest)
      ∧ ((pre ++ [s]).map shiftLeftOne).length = pre.length + 1
      ∧ (∀ i (hi : i < (pre ++ [s]).length),
          ((pre ++ [s]).map shiftLeftOne)[i]? = some (shiftLeftOne ((pre ++ [s]).get ⟨i, hi⟩)))
      ∧ ReadValue [0x12, 0x88] = (.ok [0x24, 0x10], [])
      ∧ (∀ buf : Buffer, (∀ b ∈ buf, ¬ hasStopBit b) → ReadValue buf = (.error .EOF, []))
      ∧ (∀ buf : Buffer, (∃ out left, ReadValue buf = (.ok out, left))
          ∨ ReadValue buf = (.error .EOF, [])) := by
  refine ⟨?_, by simp, ?_, by decide, fun buf h => readValueLoop_eof buf [] h, ?_⟩
  · have h := readValueLoop_stop s rest hs pre [] hpre
    simpa [ReadValue] using h
  · intro i hi
    rw [List.getElem?_map, List.getElem?_eq_getElem hi]
    rfl
  · intro buf
    by_cases hall : ∀ b ∈ buf, ¬ hasStopBit b
    · exact Or.inr (readValueLoop_eof buf [] hall)
    · left
      have hex : ∃ b ∈ buf, hasStopBit b := by
        by_contra hno
        exact hall (fun b hb hsb => hno ⟨b, hb, hsb⟩)
      have hsplit : ∀ l : List Byte, (∃ b ∈ l, hasStopBit b) →
          ∃ p t r, l = p ++ t :: r ∧ (∀ b ∈ p, ¬ hasStopBit b) ∧ hasStopBit t := by
        intro l
        induction l with
        | nil => rintro ⟨b, hb, _⟩; simp at hb
        | cons a l ih =>
          intro hl
          by_cases ha : hasStopBit a
          · exact ⟨[], a, l, by simp, by simp, ha⟩
          · obtain ⟨b, hb, hsb⟩ := hl
            have hbl : b ∈ l := by
              rcases List.mem_cons.1 hb with hb | hb
              · subst hb; exact absurd hsb ha
              · exact hb
            obtain ⟨p, t, r, hl2, hp, ht⟩ := ih ⟨b, hbl, hsb⟩
            refine ⟨a :: p, t, r, by simp [hl2], ?_, ht⟩
            intro x hx
            rcases List.mem_cons.1 hx with hx | hx
            · subst hx; exact ha
            · exact hp x hx
      obtain ⟨p, t, r, hbuf, hp, ht⟩ := hsplit buf hex
      have h := readValueLoop_stop t r ht p [] hp
      exact ⟨_, r, by rw [hbuf]; exact h⟩

/-- Witness of C21: the bytes 0x01 0x7F 0xC1 followed by 0x55. -/
theorem c21_ReadValue_shifts_witness :
    ReadValue ([0x01, 0x7F] ++ 0xC1 :: [0x55])
      = (.ok (([0x01, 0x7F] ++ [0xC1]).map shiftLeftOne), [0x55]) :=
  (c21_ReadValue_shifts [0x01, 0x7F] 0xC1 [0x55] (by decide) (by decide)).1

/-- C22: whenever `ReadUInt32` or `ReadUInt64` succeeds it has consumed exactly
the bytes up to and including the first byte with the high bit set, and the
buffer that remains is the suffix of the input after that byte; so for two
encodings `e1`, `e2` of a reader (buffers that this reader reads to their end,
with values `v1` and `v2`) two successive reads of `e1 ++ e2` by that reader
yield `v1`, leaving `e2`, and then `v2`, leaving nothing. -/
theorem c22_read_consumes_to_stop_byte (e1 e2 : Buffer) :
    (∀ (buf : Buffer) (r : UInt32Value) (rest : Buffer), ReadUInt32 buf = (.ok r, rest) →
        ∃ (pre : List Byte) (s : Byte), buf = pre ++ s :: rest
          ∧ (∀ b ∈ pre, ¬ hasStopBit b) ∧ hasStopBit s)
      ∧ (∀ (buf : Buffer) (r : UInt64Value) (rest : Buffer), ReadUInt64 buf = (.ok r, rest) →
        ∃ (pre : List Byte) (s : Byte), buf = pre ++ s :: rest
          ∧ (∀ b ∈ pre, ¬ hasStopBit b) ∧ hasStopBit s)
      ∧ (∀ v1 v2 : UInt32Value, ReadUInt32 e1 = (.ok v1, []) → ReadUInt32 e2 = (.ok v2, []) →
        ReadUInt32 (e1 ++ e2) = (.ok v1, e2)
          ∧ ReadUInt32 (ReadUInt32 (e1 ++ e2)).2 = (.ok v2, []))
      ∧ (∀ w1 w2 : UInt64Value, ReadUInt64 e1 = (.ok w1, []) → ReadUInt64 e2 = (.ok w2, []) →
        ReadUInt64 (e1 ++ e2) = (.ok w1, e2)
          ∧ ReadUInt64 (ReadUInt64 (e1 ++ e2)).2 = (.ok w2, [])) := by
  refine ⟨?_, ?_, ?_, ?_⟩
  · intro buf r rest h
    obtain ⟨pre, s, hbuf, hpre, hs, _, _⟩ := ReadUInt32_ok_split buf r rest h
    exact ⟨pre, s, hbuf, hpre, hs⟩
  · intro buf r rest h
    obtain ⟨pre, s, hbuf, hpre, hs, _, _⟩ := ReadUInt64_ok_split buf r rest h
    exact ⟨pre, s, hbuf, hpre, hs⟩
  · intro v1 v2 h1 h2
    have a32 := ReadUInt32_append e1 e2 v1 h1
    exact ⟨a32, by rw [a32]; exact h2⟩
  · intro w1 w2 k1 k2
    have a64 := ReadUInt64_append e1 e2 w1 k1
    exact ⟨a64, by rw [a64]; exact k2⟩

/-- Witness of C22: with `ReadUInt32` the encodings 0x12 0x88 of 2312 and 0x81
of 1; with `ReadUInt64` the five-byte encoding 0x01 0x00 0x00 0x00 0x81 of
2^28 + 1 and the eight-byte encoding of 2^49 + 2. -/
theorem c22_read_consumes_to_stop_byte_witness :
    (ReadUInt32 ([0x12, 0x88] ++ [0x81]) = (.ok ⟨2312⟩, [0x81])
        ∧ ReadUInt32 (ReadUInt32 ([0x12, 0x88] ++ [0x81])).2 = (.ok ⟨1⟩, []))
      ∧ (ReadUInt64 ([0x01, 0x00, 0x00, 0x00, 0x81]
            ++ [0x01, 0x00, 0x00, 0x00, 0x00, 0x00, 0x00, 0x82])
          = (.ok ⟨268435457⟩, [0x01, 0x00, 0x00, 0x00, 0x00, 0x00, 0x00, 0x82])
        ∧ ReadUInt64 (ReadUInt64 ([0x01, 0x00, 0x00, 0x00, 0x81]
            ++ [0x01, 0x00, 0x00, 0x00, 0x00, 0x00, 0x00, 0x82])).2
          = (.ok ⟨562949953421314⟩, [])) :=
  ⟨(c22_read_consumes_to_stop_byte [0x12, 0x88] [0x81]).2.2.1 ⟨2312⟩ ⟨1⟩ (by decide) (by decide),
    (c22_read_consumes_to_stop_byte [0x01, 0x00, 0x00, 0x00, 0x81]
      [0x01, 0x00, 0x00, 0x00, 0x00, 0x00, 0x00, 0x82]).2.2.2 ⟨268435457⟩ ⟨562949953421314⟩
      (by decide) (by decide)⟩

end FastEngine
